import Mathlib

/-!
# Verification of the ehon_workflow slide generators

Shallow embedding of `scripts/generate_story.py` (Marp Markdown mode) and
`scripts/generate_html_story.py` (HTML mode).  Python strings are modelled
as lists of characters (`Str`); every Python helper used by the claims is
translated into an executable Lean definition, and the claims are settled
as theorems about those definitions.
-/

set_option autoImplicit false

deriving instance DecidableEq for Except

namespace Ehon

/-- Python strings, modelled as lists of characters. -/
abbrev Str := List Char

/-- Coerce a Lean string literal into the character-list model. -/
def lit (s : String) : Str := s.data

/-- Whitespace test used by Python's `str.strip()` (space, tab, newline, …). -/
def isWs (c : Char) : Bool := c.isWhitespace

/-- Python `str.strip()`: drop whitespace from both ends. -/
def pyStrip (l : Str) : Str :=
  ((l.dropWhile isWs).reverse.dropWhile isWs).reverse

/-- A line is non-blank when its stripped form is non-empty (Python
truthiness of `ln.strip()`). -/
def nonBlank (ln : Str) : Bool := !(pyStrip ln).isEmpty

/-- Python `str.lstrip('#')`: drop leading `#` characters. -/
def lstripHash (l : Str) : Str := l.dropWhile (· = '#')

/-- Python `str.splitlines()` restricted to `\n` terminators (the only
terminator occurring in this repository's data): split at every `'\n'`,
without a trailing empty line for a trailing terminator. -/
def splitlinesGo : List Char → List Char → List Str
  | [], acc => if acc = [] then [] else [acc]
  | c :: rest, acc =>
      if c = '\n' then acc :: splitlinesGo rest []
      else splitlinesGo rest (acc ++ [c])

/-- Python `str.splitlines()` on the character-list model. -/
def pySplitlines (s : Str) : List Str := splitlinesGo s []

/-- `'\n'.join(lines)`. -/
def joinNL (ls : List Str) : Str := List.intercalate ['\n'] ls

/-- The `---` delimiter line. -/
def dashLine : Str := lit "---"

/-- `line.strip() == '---'`: the separator test of `_split_slides`. -/
def isSepLine (s : Str) : Bool := pyStrip s = dashLine

/-- Loop of `_split_slides` (generate_story.py, lines 104-137): state is the
remaining lines, the current slide's lines, and the `in_frontmatter` /
`frontmatter_done` flags.  A slide is flushed exactly where the Python loop
appends `'\n'.join(current_slide)` to `slides`. -/
def splitAux : List Str → List Str → Bool → Bool → List (List Str)
  | [], cur, _, _ => if cur = [] then [] else [cur]
  | l :: rest, cur, inFm, fmDone =>
      if isSepLine l then
        if fmDone then
          if cur = [] then splitAux rest [] inFm fmDone
          else cur :: splitAux rest [] inFm fmDone
        else
          if inFm then (cur ++ [l]) :: splitAux rest [] false true
          else splitAux rest (cur ++ [l]) true false
      else splitAux rest (cur ++ [l]) inFm fmDone

/-- `_split_slides` at the level of line lists. -/
def splitSlidesL (lines : List Str) : List (List Str) :=
  splitAux lines [] false false

/-- `_split_slides(marp_md)` (generate_story.py, lines 104-137): split the
document into its line list, run the frontmatter/slide loop, and join each
flushed slide with `'\n'`. -/
def splitSlides (md : Str) : List Str :=
  (splitSlidesL (pySplitlines md)).map joinNL

/-- `build_marp_template(title, synopsis)` (generate_story.py, lines 73-101).
The current UTC date string produced by `datetime.now(timezone.utc)
.strftime('%Y-%m-%d')` is passed in as the parameter `now`. -/
def buildMarpTemplate (title synopsis now : Str) : Str :=
  lit "---\nmarp: true\ntitle: " ++ title ++
  lit "\npaginate: true\ntheme: default\n---\n\n# " ++ title ++
  lit "\n\n---\n# はじまり\n\n" ++ synopsis ++
  lit "\n\n---\n# つづき\n\n- 1つめの出来事\n- 2つめの出来事\n- 3つめの出来事\n\n---\n# おわりに\n\n読んでくれてありがとう！\n(" ++
  now ++ lit ")\n"

/-- Inner loop of `_first_text_line` (generate_story.py, lines 140-145):
first line whose `ln.strip().lstrip('#').strip()` is non-empty, truncated
to 40 characters. -/
def firstTextLineGo : List Str → Str
  | [] => []
  | ln :: rest =>
      let s := pyStrip (lstripHash (pyStrip ln))
      if s = [] then firstTextLineGo rest else s.take 40

/-- `_first_text_line(block)` (generate_story.py, lines 140-145). -/
def firstTextLine (block : Str) : Str :=
  firstTextLineGo (pySplitlines block)

/-- The fixed five-colour palette of `_write_svg` (generate_story.py, line 151). -/
def svgPalette : List Str :=
  [lit "#FFEDD5", lit "#E0F2FE", lit "#ECFCCB", lit "#FCE7F3", lit "#FEF9C3"]

/-- Leading chunk of the SVG written by `_write_svg`, up to the interpolated
background colour. -/
def svgChunk1 : Str :=
  lit "<svg xmlns=\"http://www.w3.org/2000/svg\" width=\"1280\" height=\"720\">\n  <defs>\n    <linearGradient id=\"g\" x1=\"0\" y1=\"0\" x2=\"1\" y2=\"1\">\n      <stop offset=\"0%\" stop-color=\""

/-- Middle chunk of the SVG written by `_write_svg`, between the background
colour and the interpolated label text. -/
def svgChunk2 : Str :=
  lit "\"/>\n      <stop offset=\"100%\" stop-color=\"#ffffff\"/>\n    </linearGradient>\n  </defs>\n  <rect width=\"100%\" height=\"100%\" fill=\"url(#g)\"/>\n  <text x=\"50%\" y=\"50%\" dominant-baseline=\"middle\" text-anchor=\"middle\" font-size=\"48\" font-family=\"\x27Segoe UI\x27, \x27Noto Sans JP\x27, sans-serif\" fill=\"#333\">"

/-- Trailing chunk of the SVG written by `_write_svg`. -/
def svgChunk3 : Str := lit "</text>\n</svg>"

/-- Content of the SVG file produced by `_write_svg(path, text, index)`
(generate_story.py, lines 148-164): `bg = palette[index % len(palette)]`
and the f-string body.  The file-system write itself is not modelled; this
is the exact string written. -/
def svgContent (text : Str) (index : Nat) : Str :=
  svgChunk1 ++ (svgPalette.getD (index % svgPalette.length) []) ++
  svgChunk2 ++ text ++ svgChunk3

/-- Decimal digits of a natural number, modelling Python's str(n) /
f-string interpolation of an int. -/
def natChars (n : Nat) : Str := Nat.toDigits 10 n

/-- `embed_placeholders_and_images(marp_md, out_md_path)` (generate_story.py,
lines 167-200), restricted to the returned Markdown string (the SVG side
writes go through `svgContent` above and do not influence the result;
the relative image path `images/slide-{idx+1}.svg` does not depend on
`out_md_path`). -/
def embedPlaceholders (md : Str) : Str :=
  let slides := splitSlides md
  if slides = [] then md
  else
    let newSlides := slides.enum.map fun p =>
      if p.1 = 0 then p.2
      else pyStrip (lit "![illustration](images/slide-" ++ natChars (p.1 + 1) ++
        lit ".svg)\n\n" ++ p.2)
    if newSlides.length = 1 then newSlides.headI ++ lit "\n"
    else newSlides.headI ++ lit "\n\n" ++
      List.intercalate (lit "\n---\n\n") newSlides.tail ++ lit "\n"

/-- Python `str.lower()` restricted to ASCII (sufficient for the `title:` /
`synopsis:` label checks). -/
def pyLower (l : Str) : Str := l.map Char.toLower

/-- `ln.split(':', 1)[1]`: everything after the first colon.  Only invoked
on lines that start with a label containing a colon. -/
def afterFirstColon (l : Str) : Str := (l.dropWhile (· ≠ ':')).drop 1

/-- Loop of `read_story_seed` (generate_story.py, lines 20-32): state is
the optional title and the accumulated synopsis lines. -/
def seedLoop : List Str → Option Str → List Str → Option Str × List Str
  | [], t, syn => (t, syn)
  | ln :: rest, t, syn =>
      if pyStrip ln = [] then seedLoop rest t syn
      else if t.isNone &&
          ((lit "題名:").isPrefixOf ln || (lit "title:").isPrefixOf (pyLower ln)) then
        seedLoop rest (some (pyStrip (afterFirstColon ln))) syn
      else if (lit "あらすじ:").isPrefixOf ln || (lit "synopsis:").isPrefixOf (pyLower ln) then
        seedLoop rest t (syn ++ [pyStrip (afterFirstColon ln)])
      else if t.isNone then seedLoop rest (some (pyStrip ln)) syn
      else seedLoop rest t (syn ++ [ln])

/-- `os.path.basename`: the part of the path after the last `/`. -/
def basenamePart (p : Str) : Str := (p.reverse.takeWhile (· ≠ '/')).reverse

/-- The stem of `os.path.splitext`: strip the extension after the last dot,
but leading dots of the basename never start an extension. -/
def splitextStem (b : Str) : Str :=
  let lead := b.takeWhile (· = '.')
  let rest := b.drop lead.length
  if rest.contains '.' then
    lead ++ ((rest.reverse.dropWhile (· ≠ '.')).drop 1).reverse
  else b

/-- `read_story_seed(path)` (generate_story.py, lines 9-36), with the file's
text passed as `content` (file iteration with `rstrip('\n')` is line
splitting on `\n`).  Returns `(title, synopsis)`. -/
def readStorySeed (path content : Str) : Str × Str :=
  let lines := pySplitlines content
  let ts := seedLoop lines none []
  let title := ts.1.getD (splitextStem (basenamePart path))
  let joined := joinNL (ts.2.filter nonBlank)
  let synopsis := if joined = [] then lit "短いお話を子ども向けにまとめてください。" else joined
  (title, synopsis)

/-! ### Directory-creation model (for the `--out` handling of both entry points) -/

/-- File-system state: the set (as a list) of directories that exist. -/
abbrev FS := List Str

/-- Create a single directory if absent. -/
def fsInsert (d : Str) (fs : FS) : FS := if d ∈ fs then fs else fs ++ [d]

/-- Split a character list at every occurrence of `sep`, keeping empty
pieces (Python `str.split(sep)`). -/
def splitChar (sep : Char) : Str → List Str
  | [] => [[]]
  | c :: rest =>
      let r := splitChar sep rest
      if c = sep then [] :: r else (c :: r.headI) :: r.tail

/-- The chain of paths `os.makedirs` creates for `p`: each progressively
longer `/`-prefix of `p`. -/
def progAux (acc : Str) : List Str → List Str
  | [] => []
  | c :: cs => (acc ++ c) :: progAux (acc ++ c ++ ['/']) cs

/-- All ancestor paths of `p`, shortest first. -/
def ancestorPaths (p : Str) : List Str := progAux [] (splitChar '/' p)

/-- `os.makedirs(p, exist_ok=True)`: raises `FileNotFoundError` on the empty
path, otherwise creates every missing ancestor and never complains about
existing directories. -/
def osMakedirs (p : Str) (fs : FS) : Except Str FS :=
  if p = [] then Except.error (lit "FileNotFoundError")
  else Except.ok ((ancestorPaths p).foldl (fun a d => fsInsert d a) fs)

/-- `os.path.dirname(p)` (POSIX): everything before the last `/`, with
trailing slashes stripped unless the head is all slashes; `''` when there
is no `/`. -/
def osDirname (p : Str) : Str :=
  if p.contains '/' then
    let head := (p.reverse.dropWhile (· ≠ '/')).reverse
    if head.all (· = '/') then head
    else (head.reverse.dropWhile (· = '/')).reverse
  else []

/-- `pathlib.Path(p).parent`: like `os.path.dirname` but `.` for a bare
file name. -/
def pathParent (p : Str) : Str :=
  let d := osDirname p
  if d = [] then lit "." else d

/-- `Path(p).mkdir(parents=True, exist_ok=True)`: never fails on directory
paths; `.` already exists. -/
def pathMkdirParents (p : Str) (fs : FS) : Except Str FS :=
  if p = lit "." then Except.ok fs
  else Except.ok ((ancestorPaths p).foldl (fun a d => fsInsert d a) fs)

/-- `os.makedirs(os.path.dirname(args.out), exist_ok=True)`
(generate_story.py, line 214). -/
def mdPrepareOut (out : Str) (fs : FS) : Except Str FS :=
  osMakedirs (osDirname out) fs

/-- `output_path.parent.mkdir(parents=True, exist_ok=True)`
(generate_html_story.py, lines 353-354). -/
def htmlPrepareOut (out : Str) (fs : FS) : Except Str FS :=
  pathMkdirParents (pathParent out) fs

/-! ### Embedding of `scripts/generate_html_story.py` -/

/-- Slide-container chunk before the interpolated index `i`. -/
def divChunk1 : Str :=
  lit "\n    <div class=\"slide\" id=\"slide-"

/-- Slide-container chunk between the index and the slide content. -/
def divChunk2 : Str :=
  lit "\">\n        <div class=\"slide-content\">\n            "

/-- Slide-container chunk after the slide content. -/
def divChunk3 : Str :=
  lit "\n        </div>\n    </div>"

/-- HTML page chunk before the interpolated `title`. -/
def pageChunk1 : Str :=
  lit "<!DOCTYPE html>\n<html lang=\"ja\">\n<head>\n    <meta charset=\"UTF-8\">\n    <meta name=\"viewport\" content=\"width=device-width, initial-scale=1.0\">\n    <title>"

/-- HTML page chunk between the title and `slide_html`. -/
def pageChunk2 : Str :=
  lit "</title>\n    <style>\n        * \x7b\n            margin: 0;\n            padding: 0;\n            box-sizing: border-box;\n        \x7d\n        \n        body \x7b\n            font-family: \x27Hiragino Sans\x27, \x27Yu Gothic\x27, \x27Meiryo\x27, sans-serif;\n            background: linear-gradient(135deg, #667eea 0%, #764ba2 100%);\n            overflow: hidden;\n        \x7d\n        \n        .slideshow-container \x7b\n            position: relative;\n            width: 100vw;\n            height: 100vh;\n            display: flex;\n            align-items: center;\n            justify-content: center;\n        \x7d\n        \n        .slide \x7b\n            display: none;\n            width: 90%;\n            max-width: 800px;\n            height: 80%;\n            background: white;\n            border-radius: 20px;\n            box-shadow: 0 20px 40px rgba(0,0,0,0.1);\n            padding: 60px;\n            text-align: center;\n            position: relative;\n            animation: slideIn 0.5s ease-in-out;\n        \x7d\n        \n        .slide.active \x7b\n            display: flex;\n            flex-direction: column;\n            justify-content: center;\n            align-items: center;\n        \x7d\n        \n        .slide-content \x7b\n            font-size: 2.5em;\n            line-height: 1.6;\n            color: #333;\n            text-shadow: 0 2px 4px rgba(0,0,0,0.1);\n        \x7d\n        \n        .slide-content h1 \x7b\n            font-size: 3em;\n            color: #667eea;\n            margin-bottom: 30px;\n            text-shadow: 0 4px 8px rgba(0,0,0,0.2);\n        \x7d\n        \n        .slide-content h2 \x7b\n            font-size: 2.8em;\n            color: #764ba2;\n            margin-bottom: 20px;\n        \x7d\n        \n        .slide-content p \x7b\n            margin-bottom: 20px;\n        \x7d\n        \n        .navigation \x7b\n            position: fixed;\n            bottom: 30px;\n            left: 50%;\n            transform: translateX(-50%);\n            display: flex;\n            gap: 20px;\n            z-index: 1000;\n        \x7d\n        \n        .nav-btn \x7b\n            background: rgba(255,255,255,0.9);\n            border: none;\n            border-radius: 50px;\n            padding: 15px 25px;\n            font-size: 1.2em;\n            cursor: pointer;\n            transition: all 0.3s ease;\n            box-shadow: 0 4px 15px rgba(0,0,0,0.2);\n        \x7d\n        \n        .nav-btn:hover \x7b\n            background: white;\n            transform: translateY(-2px);\n            box-shadow: 0 6px 20px rgba(0,0,0,0.3);\n        \x7d\n        \n        .nav-btn:disabled \x7b\n            opacity: 0.5;\n            cursor: not-allowed;\n        \x7d\n        \n        .slide-counter \x7b\n            position: fixed;\n            top: 30px;\n            right: 30px;\n            background: rgba(255,255,255,0.9);\n            padding: 10px 20px;\n            border-radius: 25px;\n            font-size: 1.1em;\n            font-weight: bold;\n            color: #333;\n            box-shadow: 0 4px 15px rgba(0,0,0,0.2);\n        \x7d\n        \n        @keyframes slideIn \x7b\n            from \x7b\n                opacity: 0;\n                transform: translateX(50px);\n            \x7d\n            to \x7b\n                opacity: 1;\n                transform: translateX(0);\n            \x7d\n        \x7d\n        \n        @media (max-width: 768px) \x7b\n            .slide \x7b\n                width: 95%;\n                height: 85%;\n                padding: 40px 30px;\n            \x7d\n            \n            .slide-content \x7b\n                font-size: 2em;\n            \x7d\n            \n            .slide-content h1 \x7b\n                font-size: 2.5em;\n            \x7d\n            \n            .slide-content h2 \x7b\n                font-size: 2.2em;\n            \x7d\n        \x7d\n    </style>\n</head>\n<body>\n    <div class=\"slideshow-container\">\n        "

/-- HTML page chunk between `slide_html` and the interpolated `len(slides)` of the slide counter. -/
def pageChunk3 : Str :=
  lit "\n    </div>\n    \n    <div class=\"slide-counter\">\n        <span id=\"current-slide\">1</span> / <span id=\"total-slides\">"

/-- HTML page chunk after the slide counter: navigation buttons and the navigation script. -/
def pageChunk4 : Str :=
  lit "</span>\n    </div>\n    \n    <div class=\"navigation\">\n        <button class=\"nav-btn\" id=\"prev-btn\" onclick=\"changeSlide(-1)\">← 前へ</button>\n        <button class=\"nav-btn\" id=\"next-btn\" onclick=\"changeSlide(1)\">次へ →</button>\n    </div>\n    \n    <script>\n        let currentSlide = 0;\n        const slides = document.querySelectorAll(\x27.slide\x27);\n        const totalSlides = slides.length;\n        \n        function showSlide(n) \x7b\n            slides[currentSlide].classList.remove(\x27active\x27);\n            currentSlide = (n + totalSlides) % totalSlides;\n            slides[currentSlide].classList.add(\x27active\x27);\n            \n            document.getElementById(\x27current-slide\x27).textContent = currentSlide + 1;\n            document.getElementById(\x27prev-btn\x27).disabled = currentSlide === 0;\n            document.getElementById(\x27next-btn\x27).disabled = currentSlide === totalSlides - 1;\n        \x7d\n        \n        function changeSlide(direction) \x7b\n            showSlide(currentSlide + direction);\n        \x7d\n        \n        // Keyboard navigation\n        document.addEventListener(\x27keydown\x27, function(e) \x7b\n            if (e.key === \x27ArrowLeft\x27) \x7b\n                changeSlide(-1);\n            \x7d else if (e.key === \x27ArrowRight\x27) \x7b\n                changeSlide(1);\n            \x7d\n        \x7d);\n        \n        // Initialize\n        showSlide(0);\n        \n        // Auto-advance slides (optional)\n        // setInterval(() => \x7b\n        //     if (currentSlide < totalSlides - 1) \x7b\n        //         changeSlide(1);\n        //     \x7d\n        // \x7d, 5000);\n    </script>\n</body>\n</html>"

/-- `slide_content.replace('\n', '<br>')` (generate_html_story.py, line 23). -/
def brReplace : Str → Str
  | [] => []
  | c :: rest => (if c = '\n' then lit "<br>" else [c]) ++ brReplace rest

/-- The slides actually rendered by `generate_html_slides`: enumeration
starts at 1 (`enumerate(slides, 1)`), and a slide whose stripped content is
empty is skipped (`continue`) while still consuming its index. -/
def renderedSlides (slides : List Str) : List (Nat × Str) :=
  (List.enumFrom 1 slides).filter (fun p => pyStrip p.2 ≠ [])

/-- One slide container div (generate_html_story.py, lines 25-30). -/
def renderDiv (p : Nat × Str) : Str :=
  divChunk1 ++ natChars p.1 ++ divChunk2 ++ brReplace (pyStrip p.2) ++ divChunk3

/-- The `slide_html` accumulator of `generate_html_slides`. -/
def slideHtmlOf (slides : List Str) : Str :=
  ((renderedSlides slides).map renderDiv).flatten

/-- `generate_html_slides(title, slides)` (generate_html_story.py, lines
12-238): the full page, with `title`, `slide_html` and `len(slides)`
interpolated into the fixed template. -/
def generateHtmlSlides (title : Str) (slides : List Str) : Str :=
  pageChunk1 ++ title ++ pageChunk2 ++ slideHtmlOf slides ++
  pageChunk3 ++ natChars slides.length ++ pageChunk4

/-- The slide list of `build_html_template` (generate_html_story.py, lines
303-308).  `now` is the UTC date string computed on line 301; note that the
closing slide is a plain (non-f) string literal in the source, so `{now}`
appears verbatim and the parameter is unused. -/
def buildHtmlTemplateSlides (title synopsis now : Str) : List Str :=
  [lit "# " ++ title,
   lit "# はじまり\n\n" ++ synopsis,
   lit "# つづき\n\n- 1つめの出来事\n- 2つめの出来事\n- 3つめの出来事",
   lit "# おわりに\n\n読んでくれてありがとう！\n(\x7bnow\x7d)"]

/-- `build_html_template(title, synopsis)` (generate_html_story.py, lines
299-310). -/
def buildHtmlTemplate (title synopsis now : Str) : Str :=
  generateHtmlSlides title (buildHtmlTemplateSlides title synopsis now)

/-- Code-fence stripping applied to the Gemini output
(generate_html_story.py, lines 281-286). -/
def stripFences (t : Str) : Str :=
  let t1 := if (lit "```markdown").isPrefixOf t then t.drop 11 else t
  let t2 := if (lit "```").isPrefixOf t1 then t1.drop 3 else t1
  if (lit "```").isSuffixOf t2 then t2.take (t2.length - 3) else t2

/-- Python `text.split('---')`: split at each leftmost, non-overlapping
occurrence of `---`, keeping empty pieces. -/
def splitDashes : Str → List Str
  | [] => [[]]
  | '-' :: '-' :: '-' :: rest => [] :: splitDashes rest
  | c :: rest =>
      match splitDashes rest with
      | [] => [[c]]
      | s :: ss => (c :: s) :: ss

/-- `slides = text.strip().split('---')`;
`slides = [slide.strip() for slide in slides if slide.strip()]`
(generate_html_story.py, lines 289-290). -/
def htmlSplit (t : Str) : List Str :=
  ((splitDashes (pyStrip t)).map pyStrip).filter (fun s => s ≠ [])

/-- Outcome of the external Gemini call, as observed by the Python code:
either the library raised (`.error msg`) or it returned a response whose
extracted `text` is absent (`.ok none`) or the given string. -/
abbrev GeminiResp := Except Str (Option Str)

/-- Lines 66-70 of generate_story.py = lines 270-273 of
generate_html_story.py: a missing or empty `text` raises
`RuntimeError('Empty response from Gemini')`; a library exception
propagates. -/
def geminiText (resp : GeminiResp) : Except Str Str :=
  match resp with
  | .error e => .error e
  | .ok none => .error (lit "Empty response from Gemini")
  | .ok (some t) => if t = [] then .error (lit "Empty response from Gemini") else .ok t

/-- `build_marp_from_gemini` (generate_story.py, lines 39-70), as a function
of the external response: the returned Marp text. -/
def buildMarpFromGemini (resp : GeminiResp) : Except Str Str := geminiText resp

/-- `build_html_slides_from_gemini` (generate_html_story.py, lines 241-296):
strip code fences, split on `---`, drop blank segments, render the page. -/
def buildHtmlFromGemini (title : Str) (resp : GeminiResp) : Except Str Str :=
  (geminiText resp).map (fun t => generateHtmlSlides title (htmlSplit (stripFences t)))

/-- What a run of an entry point produces: the document written to
`--out`, the `[WARN]` log line if any, and the process exit code. -/
structure RunOutcome where
  content : Str
  warnLog : Option Str
  exitCode : Nat
deriving DecidableEq

/-- The warning printed on fallback (generate_story.py line 224 =
generate_html_story.py line 346). -/
def warnMsg (e : Str) : Str :=
  lit "[WARN] Gemini generation failed, falling back to template: " ++ e

/-- Content selection of `main` in generate_story.py (lines 216-237): use
Gemini when an API key is present, fall back to the template on failure,
then embed the SVG placeholders and write. -/
def mdMainGen (apiKey : Option Str) (resp : GeminiResp) (title synopsis now : Str) :
    RunOutcome :=
  match apiKey with
  | none => ⟨embedPlaceholders (buildMarpTemplate title synopsis now), none, 0⟩
  | some _ =>
      match buildMarpFromGemini resp with
      | .ok t => ⟨embedPlaceholders t, none, 0⟩
      | .error e =>
          ⟨embedPlaceholders (buildMarpTemplate title synopsis now), some (warnMsg e), 0⟩

/-- Content selection of `main` in generate_html_story.py (lines 338-357). -/
def htmlMainGen (apiKey : Option Str) (resp : GeminiResp) (title synopsis now : Str) :
    RunOutcome :=
  match apiKey with
  | none => ⟨buildHtmlTemplate title synopsis now, none, 0⟩
  | some _ =>
      match buildHtmlFromGemini title resp with
      | .ok h => ⟨h, none, 0⟩
      | .error e => ⟨buildHtmlTemplate title synopsis now, some (warnMsg e), 0⟩

/-- `delAllF p ps fuel l` removes every leftmost occurrence of the
non-empty pattern `p :: ps` from `l` (Python `l.replace(pat, '')`). The
`fuel` argument only bounds the recursion depth (each step consumes at
least one list element, so `l.length` fuel always suffices); it makes the
recursion structural so that concrete instances reduce. -/
def delAllF (p : Char) (ps : Str) : Nat → Str → Str
  | _, [] => []
  | 0, l => l
  | fuel + 1, c :: rest =>
      if (p :: ps).isPrefixOf (c :: rest) then delAllF p ps fuel (rest.drop ps.length)
      else c :: delAllF p ps fuel rest

/-- Python `l.replace(pat, '')` for a non-empty pattern. -/
def delAll (pat : Str) (l : Str) : Str :=
  match pat with
  | [] => l
  | p :: ps => delAllF p ps l.length l

/-- Seed parsing of `main` in generate_html_story.py (lines 322-332):
`content = f.read().strip()`, `lines = content.split('\n')`, title from a
`題名:` label or the fixed default, synopsis from the remaining lines. -/
def htmlParseSeed (raw : Str) : Str × Str :=
  let content := pyStrip raw
  let lines := splitChar '\n' content
  let l0 := lines.headI
  let title :=
    if (lit "題名:").isPrefixOf l0 then pyStrip (delAll (lit "題名:") l0)
    else lit "サンプルストーリー"
  let synopsis :=
    if 1 < lines.length then pyStrip (delAll (lit "あらすじ:") (joinNL (lines.drop 1)))
    else content
  (title, synopsis)

/-! ### Navigation state machine of the generated page (script in
`pageChunk4`) -/

/-- The four user navigation inputs. -/
inductive NavAct
  | prevClick
  | nextClick
  | keyLeft
  | keyRight
deriving DecidableEq

/-- The `direction` argument each input passes to `changeSlide`. -/
def navDir : NavAct → Int
  | .prevClick => -1
  | .nextClick => 1
  | .keyLeft => -1
  | .keyRight => 1

/-- `showSlide(n)`: `currentSlide = (n + totalSlides) % totalSlides`. -/
def showSlide (n : Nat) (k : Int) : Nat := ((k + n) % n).toNat

/-- `changeSlide(direction)`: `showSlide(currentSlide + direction)`. -/
def changeSlide (n cur : Nat) (d : Int) : Nat := showSlide n (cur + d)

/-- One user input applied to the page with `n` rendered slides at index
`cur`.  A click on a disabled button (`prev` at 0, `next` at `n - 1`) is a
browser no-op (`none`); the keyboard handler has no such guard and always
calls `changeSlide`. -/
def navStep (n cur : Nat) : NavAct → Option Nat
  | .prevClick => if cur = 0 then none else some (changeSlide n cur (-1))
  | .nextClick => if cur = n - 1 then none else some (changeSlide n cur 1)
  | .keyLeft => some (changeSlide n cur (-1))
  | .keyRight => some (changeSlide n cur 1)

/-- Run a sequence of user inputs from state `cur`. -/
def navRun (n cur : Nat) : List NavAct → Nat
  | [] => cur
  | a :: rest => navRun n ((navStep n cur a).getD cur) rest

/-- The input would drive `showSlide` through its modulo wraparound: the
raw target index `cur + direction` lies outside `[0, n)`. -/
def stepWraps (n cur : Nat) (a : NavAct) : Bool :=
  ((cur : Int) + navDir a < 0) || ((n : Int) ≤ (cur : Int) + navDir a)

/-! ### Generic helpers -/

/-- Substring test: `pat` occurs contiguously in `l`. -/
def containsSub (pat : Str) : Str → Bool
  | [] => pat.isPrefixOf []
  | c :: rest => pat.isPrefixOf (c :: rest) || containsSub pat rest

theorem isPrefixOf_append_right {α} [DecidableEq α] :
    ∀ (p l b : List α), p.isPrefixOf l = true → p.isPrefixOf (l ++ b) = true
  | [], _, _, _ => by simp [List.isPrefixOf]
  | _ :: _, [], _, h => by simp [List.isPrefixOf] at h
  | x :: p', y :: l', b, h => by
      simp only [List.isPrefixOf, Bool.and_eq_true, beq_iff_eq] at h
      simp only [List.cons_append, List.isPrefixOf, Bool.and_eq_true, beq_iff_eq]
      exact ⟨h.1, isPrefixOf_append_right p' l' b h.2⟩

theorem isPrefixOf_self_append {α} [DecidableEq α] :
    ∀ (l r : List α), l.isPrefixOf (l ++ r) = true
  | [], _ => by simp [List.isPrefixOf]
  | x :: l', r => by
      simp [List.isPrefixOf, isPrefixOf_self_append l' r]

theorem containsSub_append_right (pat : Str) :
    ∀ (a b : Str), containsSub pat b = true → containsSub pat (a ++ b) = true := by
  intro a
  induction a with
  | nil => intro b h; rw [List.nil_append]; exact h
  | cons c a' ih =>
      intro b h
      have hb : containsSub pat (a' ++ b) = true := ih b h
      simp only [List.cons_append, containsSub, Bool.or_eq_true]
      exact Or.inr hb

theorem containsSub_of_decomp (pat pre post : Str) :
    containsSub pat (pre ++ pat ++ post) = true := by
  rw [List.append_assoc]
  apply containsSub_append_right
  cases pat with
  | nil => cases post <;> simp [containsSub, List.isPrefixOf]
  | cons c p' =>
      show containsSub (c :: p') ((c :: p') ++ post) = true
      cases post with
      | nil =>
          rw [List.append_nil]
          simp [containsSub, isPrefixOf_self_append (c :: p') []]
      | cons d post' =>
          simp [containsSub, isPrefixOf_self_append (c :: p') (d :: post')]

theorem intercalate_cons_two {α} (sep : List α) (a b : List α) (l : List (List α)) :
    List.intercalate sep (a :: b :: l) = a ++ sep ++ List.intercalate sep (b :: l) := by
  simp [List.intercalate, List.intersperse]

theorem intercalate_one {α} (sep : List α) (a : List α) :
    List.intercalate sep [a] = a := by
  simp [List.intercalate, List.intersperse]

theorem joinNL_ne_nil (t : List Str) (h1 : t ≠ []) (h2 : ∀ x ∈ t, x ≠ []) :
    joinNL t ≠ [] := by
  cases t with
  | nil => exact absurd rfl h1
  | cons x t' =>
      cases t' with
      | nil =>
          rw [joinNL, intercalate_one]
          exact h2 x (List.mem_cons_self _ _)
      | cons y t'' =>
          rw [joinNL, intercalate_cons_two]
          rcases x with _ | ⟨c, x'⟩ <;> simp

/-! ### C3: the template renderers and the closing slide's date -/

/-- C3: each template renderer yields exactly 4 slides and the closing
slide carries the current UTC date.  The Markdown renderer does embed the
date, but in `build_html_template` the closing slide is a plain (non-f)
string, so it contains the literal text `({now})` and never the date: the
`now` value computed on line 301 of generate_html_story.py is unused.
Evaluated here at the failing input `title="t"`, `synopsis="s"`,
`now="2099-01-02"`. -/
theorem C3_closing_slide_date :
    (buildHtmlTemplateSlides (lit "t") (lit "s") (lit "2099-01-02")).length = 4 ∧
    (buildHtmlTemplateSlides (lit "t") (lit "s") (lit "2099-01-02")).getLastD [] =
      lit "# おわりに\n\n読んでくれてありがとう！\n(\x7bnow\x7d)" ∧
    containsSub (lit "2099-01-02")
      ((buildHtmlTemplateSlides (lit "t") (lit "s") (lit "2099-01-02")).getLastD []) = false ∧
    containsSub (lit "2099-01-02")
      ((splitSlides (buildMarpTemplate (lit "t") (lit "s") (lit "2099-01-02"))).getLastD []) =
      true := by
  decide

/-! ### C4: seed parsing without label lines -/

/-- A line carrying none of the four labels recognised by
`read_story_seed`. -/
def labelFree (ln : Str) : Prop :=
  (lit "題名:").isPrefixOf ln = false ∧
  (lit "title:").isPrefixOf (pyLower ln) = false ∧
  (lit "あらすじ:").isPrefixOf ln = false ∧
  (lit "synopsis:").isPrefixOf (pyLower ln) = false

instance labelFreeDec (ln : Str) : Decidable (labelFree ln) := by
  unfold labelFree
  exact inferInstance

theorem nonBlank_false_iff (ln : Str) : nonBlank ln = false ↔ pyStrip ln = [] := by
  simp [nonBlank, List.isEmpty_iff]

theorem seedLoop_some (lines : List Str) (t : Str) (syn : List Str)
    (h : ∀ ln ∈ lines, labelFree ln) :
    seedLoop lines (some t) syn = (some t, syn ++ lines.filter nonBlank) := by
  induction lines generalizing syn with
  | nil => simp [seedLoop]
  | cons ln rest ih =>
      have hl := h ln (List.mem_cons_self _ _)
      have hr : ∀ x ∈ rest, labelFree x := fun x hx => h x (List.mem_cons_of_mem _ hx)
      by_cases hb : pyStrip ln = []
      · have : nonBlank ln = false := (nonBlank_false_iff ln).mpr hb
        simp [seedLoop, hb, ih syn hr, List.filter_cons, this]
      · have hnb : nonBlank ln = true := by
          cases hx : nonBlank ln
          · exact absurd ((nonBlank_false_iff ln).mp hx) hb
          · rfl
        simp [seedLoop, hb, hl.2.2.1, hl.2.2.2, ih (syn ++ [ln]) hr,
          List.filter_cons, hnb]

theorem seedLoop_none (lines : List Str) (syn : List Str)
    (h : ∀ ln ∈ lines, labelFree ln) :
    seedLoop lines none syn =
      match lines.filter nonBlank with
      | [] => (none, syn)
      | hd :: tl => (some (pyStrip hd), syn ++ tl) := by
  induction lines with
  | nil => simp [seedLoop]
  | cons ln rest ih =>
      have hl := h ln (List.mem_cons_self _ _)
      have hr : ∀ x ∈ rest, labelFree x := fun x hx => h x (List.mem_cons_of_mem _ hx)
      by_cases hb : pyStrip ln = []
      · have : nonBlank ln = false := (nonBlank_false_iff ln).mpr hb
        simp only [seedLoop, hb, if_pos rfl, List.filter_cons, this]
        simpa using ih hr
      · have hnb : nonBlank ln = true := by
          cases hx : nonBlank ln
          · exact absurd ((nonBlank_false_iff ln).mp hx) hb
          · rfl
        simp [seedLoop, hb, hl.1, hl.2.1, hl.2.2.1, hl.2.2.2,
          seedLoop_some rest (pyStrip ln) syn hr, List.filter_cons, hnb]

/-- C4 (amended): for a label-free seed file, `read_story_seed` (the
Markdown entry point) takes the stripped first non-blank line as the title
and joins the remaining non-blank lines into the synopsis; the HTML entry
point, by contrast, falls back to the fixed default title
`サンプルストーリー` whenever the first line does not start with `題名:`,
and its synopsis is the lines after the first, joined, with every
occurrence of `あらすじ:` excised and the result stripped — or the whole
stripped content when the seed has at most one line. -/
theorem C4_amended (path content raw : Str)
    (hl : ∀ ln ∈ pySplitlines content, labelFree ln)
    (hnb : (pySplitlines content).filter nonBlank ≠ [])
    (hraw : (lit "題名:").isPrefixOf (splitChar '\n' (pyStrip raw)).headI = false) :
    (readStorySeed path content).1 =
      pyStrip (((pySplitlines content).filter nonBlank).headI) ∧
    (((pySplitlines content).filter nonBlank).tail ≠ [] →
      (readStorySeed path content).2 =
        joinNL (((pySplitlines content).filter nonBlank).tail)) ∧
    (htmlParseSeed raw).1 = lit "サンプルストーリー" ∧
    (1 < (splitChar '\n' (pyStrip raw)).length →
      (htmlParseSeed raw).2 =
        pyStrip (delAll (lit "あらすじ:")
          (joinNL ((splitChar '\n' (pyStrip raw)).drop 1)))) ∧
    (¬ 1 < (splitChar '\n' (pyStrip raw)).length →
      (htmlParseSeed raw).2 = pyStrip raw) := by
  have hloop := seedLoop_none (pySplitlines content) [] hl
  rcases hnbv : (pySplitlines content).filter nonBlank with _ | ⟨hd, tl⟩
  · exact absurd hnbv hnb
  · rw [hnbv] at hloop
    have htlmem : ∀ x ∈ tl, nonBlank x = true := by
      intro x hx
      have : x ∈ (pySplitlines content).filter nonBlank := by
        rw [hnbv]; exact List.mem_cons_of_mem _ hx
      exact List.of_mem_filter this
    have htlfilter : tl.filter nonBlank = tl := List.filter_eq_self.mpr htlmem
    refine ⟨?_, ?_, ?_, ?_, ?_⟩
    · simp [readStorySeed, hloop, hnbv]
    · intro htl
      have hne : joinNL tl ≠ [] := by
        apply joinNL_ne_nil tl htl
        intro x hx
        have := htlmem x hx
        intro hxe
        rw [hxe] at this
        simp [nonBlank, pyStrip] at this
      simp [readStorySeed, hloop, hnbv, htlfilter, hne]
    · simp [htmlParseSeed, hraw]
    · intro hlen
      simp [htmlParseSeed, hlen]
    · intro hlen
      simp [htmlParseSeed, hlen]

/-- C4 counterexample: for the label-free seed `"A\nB"`, the HTML entry
point's title is the fixed default `サンプルストーリー`, not the first
line `A` (which `read_story_seed` does use); and for the seed
`"A\nB あらすじ:C"` the HTML synopsis is `"B C"` — the interior
`あらすじ:` occurrence is excised by `replace` — not the raw remainder
`"B あらすじ:C"`. -/
theorem C4_counterexample :
    (htmlParseSeed (lit "A\nB")).1 = lit "サンプルストーリー" ∧
    (htmlParseSeed (lit "A\nB")).1 ≠ lit "A" ∧
    (readStorySeed (lit "seed.txt") (lit "A\nB")).1 = lit "A" ∧
    (htmlParseSeed (lit "A\nB あらすじ:C")).2 = lit "B C" ∧
    (htmlParseSeed (lit "A\nB あらすじ:C")).2 ≠ lit "B あらすじ:C" := by
  decide

/-- C4 witness: the amended statement at a concrete label-free seed. -/
theorem C4_witness :
    (readStorySeed (lit "seed.txt") (lit "T\n\nx\ny")).1 =
      pyStrip (((pySplitlines (lit "T\n\nx\ny")).filter nonBlank).headI) ∧
    (((pySplitlines (lit "T\n\nx\ny")).filter nonBlank).tail ≠ [] →
      (readStorySeed (lit "seed.txt") (lit "T\n\nx\ny")).2 =
        joinNL (((pySplitlines (lit "T\n\nx\ny")).filter nonBlank).tail)) ∧
    (htmlParseSeed (lit "X\nY")).1 = lit "サンプルストーリー" ∧
    (1 < (splitChar '\n' (pyStrip (lit "X\nY"))).length →
      (htmlParseSeed (lit "X\nY")).2 =
        pyStrip (delAll (lit "あらすじ:")
          (joinNL ((splitChar '\n' (pyStrip (lit "X\nY"))).drop 1)))) ∧
    (¬ 1 < (splitChar '\n' (pyStrip (lit "X\nY"))).length →
      (htmlParseSeed (lit "X\nY")).2 = pyStrip (lit "X\nY")) :=
  C4_amended (lit "seed.txt") (lit "T\n\nx\ny") (lit "X\nY")
    (by decide) (by decide) (by decide)

/-! ### C5: fallback to the template on Gemini failure -/

/-- The external generation failed: the library raised, or the response
text was absent or empty (which raises `RuntimeError` in the builder). -/
def genFailed (resp : GeminiResp) : Bool :=
  match geminiText resp with
  | .error _ => true
  | .ok _ => false

/-- The failure reason carried by the raised exception. -/
def genFailMsg (resp : GeminiResp) : Str :=
  match geminiText resp with
  | .error e => e
  | .ok _ => []

/-- C5: whenever the Gemini step raises or returns an empty/absent
response, both entry points log the `[WARN]` line carrying the failure
reason, write the template-derived document, and exit with code 0. -/
theorem C5_fallback (k : Str) (resp : GeminiResp) (title synopsis now : Str)
    (h : genFailed resp = true) :
    mdMainGen (some k) resp title synopsis now =
      ⟨embedPlaceholders (buildMarpTemplate title synopsis now),
        some (warnMsg (genFailMsg resp)), 0⟩ ∧
    htmlMainGen (some k) resp title synopsis now =
      ⟨buildHtmlTemplate title synopsis now,
        some (warnMsg (genFailMsg resp)), 0⟩ ∧
    warnMsg (genFailMsg resp) =
      lit "[WARN] Gemini generation failed, falling back to template: " ++
        genFailMsg resp := by
  rcases resp with e | o
  · simp [mdMainGen, htmlMainGen, buildMarpFromGemini, buildHtmlFromGemini,
      geminiText, genFailMsg, warnMsg, Except.map]
  · cases o with
    | none =>
        simp [mdMainGen, htmlMainGen, buildMarpFromGemini, buildHtmlFromGemini,
          geminiText, genFailMsg, warnMsg, Except.map]
    | some t =>
        by_cases ht : t = []
        · subst ht
          simp [mdMainGen, htmlMainGen, buildMarpFromGemini, buildHtmlFromGemini,
            geminiText, genFailMsg, warnMsg, Except.map]
        · exfalso
          simp [genFailed, geminiText, ht] at h

/-- C5 witness: the fallback at a concrete failing response. -/
theorem C5_witness :
    mdMainGen (some (lit "k")) (Except.error (lit "boom")) (lit "T") (lit "S") (lit "D") =
      ⟨embedPlaceholders (buildMarpTemplate (lit "T") (lit "S") (lit "D")),
        some (warnMsg (genFailMsg (Except.error (lit "boom")))), 0⟩ ∧
    htmlMainGen (some (lit "k")) (Except.error (lit "boom")) (lit "T") (lit "S") (lit "D") =
      ⟨buildHtmlTemplate (lit "T") (lit "S") (lit "D"),
        some (warnMsg (genFailMsg (Except.error (lit "boom")))), 0⟩ ∧
    warnMsg (genFailMsg (Except.error (lit "boom"))) =
      lit "[WARN] Gemini generation failed, falling back to template: " ++
        genFailMsg (Except.error (lit "boom")) :=
  C5_fallback (lit "k") (Except.error (lit "boom")) (lit "T") (lit "S") (lit "D")
    (by decide)

/-! ### C7: output-directory creation -/

/-- Create every path in `ps`, in order. -/
def fsCreateAll (ps : List Str) (fs : FS) : FS :=
  ps.foldl (fun a d => fsInsert d a) fs

theorem fsCreateAll_cons (p : Str) (ps : List Str) (fs : FS) :
    fsCreateAll (p :: ps) fs = fsCreateAll ps (fsInsert p fs) := rfl

theorem mem_fsInsert_self (d : Str) (fs : FS) : d ∈ fsInsert d fs := by
  unfold fsInsert
  split
  · assumption
  · exact List.mem_append_right _ (List.mem_singleton_self d)

theorem mem_fsInsert_of_mem (x d : Str) (fs : FS) (h : x ∈ fs) : x ∈ fsInsert d fs := by
  unfold fsInsert
  split
  · exact h
  · exact List.mem_append_left _ h

theorem fsInsert_eq_of_mem (d : Str) (fs : FS) (h : d ∈ fs) : fsInsert d fs = fs := by
  unfold fsInsert
  exact if_pos h

theorem mem_fsCreateAll_of_mem (x : Str) (ps : List Str) (fs : FS) (h : x ∈ fs) :
    x ∈ fsCreateAll ps fs := by
  induction ps generalizing fs with
  | nil => exact h
  | cons p ps ih => exact ih (fsInsert p fs) (mem_fsInsert_of_mem x p fs h)

theorem mem_fsCreateAll_of_mem_paths (x : Str) (ps : List Str) :
    ∀ (fs : FS), x ∈ ps → x ∈ fsCreateAll ps fs := by
  induction ps with
  | nil => intro fs h; cases h
  | cons p ps ih =>
      intro fs h
      rcases List.mem_cons.mp h with rfl | hx
      · exact mem_fsCreateAll_of_mem x ps _ (mem_fsInsert_self x fs)
      · exact ih (fsInsert p fs) hx

theorem fsCreateAll_eq_of_all_mem (ps : List Str) (fs : FS)
    (h : ∀ d ∈ ps, d ∈ fs) : fsCreateAll ps fs = fs := by
  induction ps with
  | nil => rfl
  | cons p ps ih =>
      rw [fsCreateAll_cons, fsInsert_eq_of_mem p fs (h p (List.mem_cons_self _ _))]
      exact ih (fun d hd => h d (List.mem_cons_of_mem _ hd))

theorem fsCreateAll_idem (ps : List Str) (fs : FS) :
    fsCreateAll ps (fsCreateAll ps fs) = fsCreateAll ps fs :=
  fsCreateAll_eq_of_all_mem ps _ (fun d hd => mem_fsCreateAll_of_mem_paths d ps fs hd)

/-- C7 counterexample: for an output path with no parent directory
component, the Markdown entry point's `os.makedirs(os.path.dirname(out))`
receives `''` and raises `FileNotFoundError`; the HTML entry point's
`Path(out).parent.mkdir` handles the same case. -/
theorem C7_counterexample :
    mdPrepareOut (lit "out.md") [] = Except.error (lit "FileNotFoundError") ∧
    htmlPrepareOut (lit "out.html") [] = Except.ok [] := by
  decide

/-- C7 (amended): directory creation before writing is idempotent and
error-free for both entry points whenever the output path has a non-empty
parent directory component; for a bare file name only the HTML entry point
succeeds (the Markdown entry point raises, see the counterexample). -/
theorem C7_amended (out : Str) (fs : FS) (hd : osDirname out ≠ []) :
    (∃ fs₁, mdPrepareOut out fs = Except.ok fs₁ ∧
      mdPrepareOut out fs₁ = Except.ok fs₁) ∧
    (∃ fs₂, htmlPrepareOut out fs = Except.ok fs₂ ∧
      htmlPrepareOut out fs₂ = Except.ok fs₂) := by
  constructor
  · refine ⟨fsCreateAll (ancestorPaths (osDirname out)) fs, ?_, ?_⟩
    · simp [mdPrepareOut, osMakedirs, hd, fsCreateAll]
    · simp only [mdPrepareOut, osMakedirs, if_neg hd]
      rw [show ∀ ps gs, ps.foldl (fun a d => fsInsert d a) gs = fsCreateAll ps gs
        from fun _ _ => rfl, fsCreateAll_idem]
  · by_cases hp : pathParent out = lit "."
    · exact ⟨fs, by simp [htmlPrepareOut, pathMkdirParents, hp],
        by simp [htmlPrepareOut, pathMkdirParents, hp]⟩
    · refine ⟨fsCreateAll (ancestorPaths (pathParent out)) fs, ?_, ?_⟩
      · simp [htmlPrepareOut, pathMkdirParents, hp, fsCreateAll]
      · simp only [htmlPrepareOut, pathMkdirParents, if_neg hp]
        rw [show ∀ ps gs, ps.foldl (fun a d => fsInsert d a) gs = fsCreateAll ps gs
          from fun _ _ => rfl, fsCreateAll_idem]

/-- C7 witness: the amended statement at a concrete nested output path. -/
theorem C7_witness :
    (∃ fs₁, mdPrepareOut (lit "slides/out.md") [] = Except.ok fs₁ ∧
      mdPrepareOut (lit "slides/out.md") fs₁ = Except.ok fs₁) ∧
    (∃ fs₂, htmlPrepareOut (lit "slides/out.md") [] = Except.ok fs₂ ∧
      htmlPrepareOut (lit "slides/out.md") fs₂ = Except.ok fs₂) :=
  C7_amended (lit "slides/out.md") [] (by decide)

/-! ### C9: the navigation state machine -/

/-- Along a run, every transition actually taken avoids the wraparound of
`showSlide` (clicks on disabled buttons are no-ops and are skipped). -/
def runNoWrap (n cur : Nat) : List NavAct → Bool
  | [] => true
  | a :: rest =>
      match navStep n cur a with
      | none => runNoWrap n cur rest
      | some c' => !(stepWraps n cur a) && runNoWrap n c' rest

/-- C9 counterexample: with 4 slides, from the initial state (slide index
0, the first slide), a single ArrowLeft key press is accepted by the
unguarded keyboard handler and moves to index 3 — the last slide — through
the modulo wraparound. -/
theorem C9_counterexample :
    navRun 4 0 [] = 0 ∧
    navStep 4 0 NavAct.keyLeft = some 3 ∧
    stepWraps 4 0 NavAct.keyLeft = true ∧
    (3 : Nat) = 4 - 1 := by
  decide

theorem navStep_prev (n cur : Nat) (hcur : cur < n) (h0 : cur ≠ 0) :
    navStep n cur NavAct.prevClick = some (cur - 1) := by
  have h1 : (1 : Int) ≤ cur := by omega
  have hkey : ((cur : Int) + -1 + n) % n = (cur : Int) + -1 := by
    have h2 : ((cur : Int) + -1 + n) = ((cur : Int) + -1) + (n : Int) * 1 := by ring
    rw [h2, Int.add_mul_emod_self_left]
    exact Int.emod_eq_of_lt (by omega) (by omega)
  simp only [navStep, if_neg h0, changeSlide, showSlide, hkey]
  congr 1
  omega

theorem navStep_next (n cur : Nat) (hcur : cur < n) (h0 : cur ≠ n - 1) :
    navStep n cur NavAct.nextClick = some (cur + 1) := by
  have hlt : (cur : Int) + 1 < n := by omega
  have hkey : ((cur : Int) + 1 + n) % n = (cur : Int) + 1 := by
    have h2 : ((cur : Int) + 1 + n) = ((cur : Int) + 1) + (n : Int) * 1 := by ring
    rw [h2, Int.add_mul_emod_self_left]
    exact Int.emod_eq_of_lt (by omega) (by omega)
  simp only [navStep, if_neg h0, changeSlide, showSlide, hkey]
  congr 1

/-- C9 (amended): button navigation alone never reaches the wraparound:
`prev` is a no-op at the first slide and `next` at the last, so every
transition taken by a button-only input sequence stays inside the bounds —
but the arrow keys bypass the disabled state and do wrap (see the
counterexample). -/
theorem C9_amended (n : Nat) (acts : List NavAct) (cur : Nat)
    (hn : 0 < n) (hcur : cur < n)
    (hb : ∀ a ∈ acts, a = NavAct.prevClick ∨ a = NavAct.nextClick) :
    runNoWrap n cur acts = true ∧ navRun n cur acts < n := by
  induction acts generalizing cur with
  | nil => exact ⟨rfl, hcur⟩
  | cons a rest ih =>
      have ha := hb a (List.mem_cons_self _ _)
      have hrest : ∀ x ∈ rest, x = NavAct.prevClick ∨ x = NavAct.nextClick :=
        fun x hx => hb x (List.mem_cons_of_mem _ hx)
      rcases ha with rfl | rfl
      · by_cases h0 : cur = 0
        · subst h0
          have hstep : navStep n 0 NavAct.prevClick = none := by simp [navStep]
          have := ih 0 hcur hrest
          constructor
          · simp only [runNoWrap, hstep]
            exact this.1
          · simp only [navRun, hstep, Option.getD_none]
            exact this.2
        · have hstep := navStep_prev n cur hcur h0
          have hw : stepWraps n cur NavAct.prevClick = false := by
            simp only [stepWraps, navDir]
            have : ¬((cur : Int) + -1 < 0) := by omega
            have h2 : ¬((n : Int) ≤ (cur : Int) + -1) := by omega
            simp [this, h2]
          have := ih (cur - 1) (by omega) hrest
          constructor
          · simp only [runNoWrap, hstep, hw]
            exact by simpa using this.1
          · simp only [navRun, hstep, Option.getD_some]
            exact this.2
      · by_cases h0 : cur = n - 1
        · have hstep : navStep n cur NavAct.nextClick = none := by
            simp [navStep, h0]
          have := ih cur hcur hrest
          constructor
          · simp only [runNoWrap, hstep]
            exact this.1
          · simp only [navRun, hstep, Option.getD_none]
            exact this.2
        · have hstep := navStep_next n cur hcur h0
          have hw : stepWraps n cur NavAct.nextClick = false := by
            simp only [stepWraps, navDir]
            have h1 : ¬((cur : Int) + 1 < 0) := by omega
            have h2 : ¬((n : Int) ≤ (cur : Int) + 1) := by omega
            simp [h1, h2]
          have := ih (cur + 1) (by omega) hrest
          constructor
          · simp only [runNoWrap, hstep, hw]
            exact by simpa using this.1
          · simp only [navRun, hstep, Option.getD_some]
            exact this.2

/-- C9 witness: a concrete button-only run. -/
theorem C9_witness :
    runNoWrap 4 0 [NavAct.nextClick, NavAct.nextClick, NavAct.prevClick] = true ∧
    navRun 4 0 [NavAct.nextClick, NavAct.nextClick, NavAct.prevClick] < 4 :=
  C9_amended 4 [NavAct.nextClick, NavAct.nextClick, NavAct.prevClick] 0
    (by decide) (by decide) (by decide)

/-! ### C10: skipped blank slides versus the static counter -/

theorem renderedFrom_lt (slides : List Str) :
    ∀ n : Nat, (∃ s ∈ slides, pyStrip s = []) →
      ((List.enumFrom n slides).filter (fun p => pyStrip p.2 ≠ [])).length <
        slides.length := by
  induction slides with
  | nil =>
      rintro n ⟨s, hs, _⟩
      cases hs
  | cons x rest ih =>
      intro n hex
      rw [List.enumFrom, List.filter_cons]
      by_cases hx : pyStrip x = []
      · have hfalse : (decide (pyStrip ((n, x) : Nat × Str).2 ≠ [])) = false := by
          simp [hx]
        rw [hfalse]
        simp only [List.length_cons]
        calc ((List.enumFrom (n + 1) rest).filter (fun p => pyStrip p.2 ≠ [])).length
            ≤ (List.enumFrom (n + 1) rest).length := List.length_filter_le _ _
          _ = rest.length := by rw [List.enumFrom_length]
          _ < rest.length + 1 := Nat.lt_succ_self _
      · obtain ⟨s, hs, hse⟩ := hex
        have hs' : s ∈ rest := by
          rcases List.mem_cons.mp hs with rfl | h
          · exact absurd hse hx
          · exact h
        have htrue : (decide (pyStrip ((n, x) : Nat × Str).2 ≠ [])) = true := by
          simp [hx]
        rw [htrue]
        simp only [List.length_cons]
        exact Nat.succ_lt_succ (ih (n + 1) ⟨s, hs', hse⟩)

/-- C10: when the slide list contains a blank element, `generate_html_slides`
renders strictly fewer slide containers than `len(slides)`, yet the static
slide counter of the page interpolates the full `len(slides)`. -/
theorem C10_counter_mismatch (title : Str) (slides : List Str)
    (h : ∃ s ∈ slides, pyStrip s = []) :
    (renderedSlides slides).length < slides.length ∧
    generateHtmlSlides title slides =
      pageChunk1 ++ title ++ pageChunk2 ++ slideHtmlOf slides ++
      pageChunk3 ++ natChars slides.length ++ pageChunk4 :=
  ⟨renderedFrom_lt slides 1 h, rfl⟩

/-- C10 witness: a concrete list with a whitespace-only slide. -/
theorem C10_witness :
    (renderedSlides [lit "a", lit "  ", lit "b"]).length <
      (([lit "a", lit "  ", lit "b"] : List Str)).length ∧
    generateHtmlSlides (lit "t") [lit "a", lit "  ", lit "b"] =
      pageChunk1 ++ lit "t" ++ pageChunk2 ++
      slideHtmlOf [lit "a", lit "  ", lit "b"] ++
      pageChunk3 ++ natChars ([lit "a", lit "  ", lit "b"] : List Str).length ++
      pageChunk4 :=
  C10_counter_mismatch (lit "t") [lit "a", lit "  ", lit "b"] (by decide)

/-! ### The `_split_slides` loop: phase lemmas -/

/-- No line of `ls` is a `---` separator line. -/
def NoSep (ls : List Str) : Prop := ∀ s ∈ ls, isSepLine s = false

instance noSepDec (ls : List Str) : Decidable (NoSep ls) := by
  unfold NoSep
  exact inferInstance

theorem splitAux_nil (cur : List Str) (i f : Bool) :
    splitAux [] cur i f = if cur = [] then [] else [cur] := rfl

theorem splitAux_nosep (l : Str) (rest cur : List Str) (i f : Bool)
    (h : isSepLine l = false) :
    splitAux (l :: rest) cur i f = splitAux rest (cur ++ [l]) i f := by
  simp [splitAux, h]

theorem splitAux_sep_open (l : Str) (rest cur : List Str) (h : isSepLine l = true) :
    splitAux (l :: rest) cur false false = splitAux rest (cur ++ [l]) true false := by
  simp [splitAux, h]

theorem splitAux_sep_close (l : Str) (rest cur : List Str) (h : isSepLine l = true) :
    splitAux (l :: rest) cur true false = (cur ++ [l]) :: splitAux rest [] false true := by
  simp [splitAux, h]

theorem splitAux_sep_done (l : Str) (rest cur : List Str) (i : Bool)
    (h : isSepLine l = true) :
    splitAux (l :: rest) cur i true =
      if cur = [] then splitAux rest [] i true else cur :: splitAux rest [] i true := by
  simp [splitAux, h]

theorem splitAux_accum (ls : List Str) :
    ∀ (rest cur : List Str) (i f : Bool), NoSep ls →
      splitAux (ls ++ rest) cur i f = splitAux rest (cur ++ ls) i f := by
  induction ls with
  | nil => intro rest cur i f _; simp
  | cons l ls ih =>
      intro rest cur i f h
      have hl : isSepLine l = false := h l (List.mem_cons_self _ _)
      have hls : NoSep ls := fun s hs => h s (List.mem_cons_of_mem _ hs)
      rw [List.cons_append, splitAux_nosep l _ cur i f hl, ih rest (cur ++ [l]) i f hls,
        ← List.append_cons]

/-- The slide-separation phase after the frontmatter is closed
(`frontmatter_done = True`). -/
def contentSegs (ls : List Str) : List (List Str) := splitAux ls [] false true

theorem contentSegs_nil : contentSegs [] = [] := rfl

theorem contentSegs_sep (l : Str) (rest : List Str) (h : isSepLine l = true) :
    contentSegs (l :: rest) = contentSegs rest := by
  simp [contentSegs, splitAux_sep_done, h]

theorem contentSegs_flush (b : List Str) (l : Str) (rest : List Str)
    (hb : NoSep b) (hbne : b ≠ []) (hl : isSepLine l = true) :
    contentSegs (b ++ l :: rest) = b :: contentSegs rest := by
  unfold contentSegs
  rw [splitAux_accum b (l :: rest) [] false true hb, List.nil_append,
    splitAux_sep_done l rest b false hl, if_neg hbne]

theorem contentSegs_final (b : List Str) (hb : NoSep b) :
    contentSegs b = if b = [] then [] else [b] := by
  unfold contentSegs
  rw [← List.append_nil b, splitAux_accum b [] [] false true hb, List.nil_append,
    splitAux_nil, List.append_nil]

theorem isSepLine_dashLine : isSepLine dashLine = true := by decide

theorem contentSegs_intercalate (blocks : List (List Str))
    (h : ∀ b ∈ blocks, b ≠ [] ∧ NoSep b) :
    contentSegs (List.intercalate [dashLine] blocks) = blocks := by
  induction blocks with
  | nil => simp [List.intercalate, List.intersperse, contentSegs_nil]
  | cons b blocks ih =>
      have hb := h b (List.mem_cons_self _ _)
      have hrest : ∀ x ∈ blocks, x ≠ [] ∧ NoSep x :=
        fun x hx => h x (List.mem_cons_of_mem _ hx)
      cases blocks with
      | nil =>
          rw [intercalate_one, contentSegs_final b hb.2, if_neg hb.1]
      | cons b2 bl2 =>
          rw [intercalate_cons_two, List.append_assoc, List.singleton_append,
            contentSegs_flush b dashLine _ hb.2 hb.1 isSepLine_dashLine,
            ih hrest]

/-- Structure theorem for `_split_slides`: the first two separator lines —
wherever they occur — close segment 0 (which keeps both separator lines);
everything after runs in the plain separation phase. -/
theorem splitSlidesL_master (pre mid rest : List Str) (s1 s2 : Str)
    (hpre : NoSep pre) (hmid : NoSep mid)
    (h1 : isSepLine s1 = true) (h2 : isSepLine s2 = true) :
    splitSlidesL (pre ++ (s1 :: (mid ++ (s2 :: rest)))) =
      (pre ++ (s1 :: (mid ++ [s2]))) :: contentSegs rest := by
  unfold splitSlidesL
  rw [splitAux_accum pre (s1 :: (mid ++ (s2 :: rest))) [] false false hpre, List.nil_append,
    splitAux_sep_open s1 (mid ++ (s2 :: rest)) pre h1,
    splitAux_accum mid (s2 :: rest) (pre ++ [s1]) true false hmid,
    splitAux_sep_close s2 rest (pre ++ [s1] ++ mid) h2]
  unfold contentSegs
  congr 1
  simp

theorem splitSlidesL_oneSep (pre q : List Str) (s1 : Str)
    (hpre : NoSep pre) (hq : NoSep q) (h1 : isSepLine s1 = true) :
    splitSlidesL (pre ++ (s1 :: q)) = [pre ++ (s1 :: q)] := by
  unfold splitSlidesL
  rw [splitAux_accum pre (s1 :: q) [] false false hpre, List.nil_append,
    splitAux_sep_open s1 q pre h1]
  conv_lhs => rw [← List.append_nil q]
  rw [splitAux_accum q [] (pre ++ [s1]) true false hq, splitAux_nil]
  have hne : pre ++ [s1] ++ q ≠ [] := by simp
  rw [if_neg hne]
  congr 1
  simp

theorem splitSlidesL_nosep (ls : List Str) (h : NoSep ls) :
    splitSlidesL ls = if ls = [] then [] else [ls] := by
  unfold splitSlidesL
  rw [← List.append_nil ls, splitAux_accum ls [] [] false false h, List.nil_append,
    splitAux_nil, List.append_nil]

/-! ### Round-tripping `splitlines` and `join` -/

theorem splitlinesGo_nonl (l : Str) :
    ∀ (r acc : Str), '\n' ∉ l → splitlinesGo (l ++ r) acc = splitlinesGo r (acc ++ l) := by
  induction l with
  | nil => intro r acc _; simp
  | cons c l ih =>
      intro r acc h
      have hc : ¬ (c = '\n') := by
        intro he
        subst he
        exact h (List.mem_cons_self _ _)
      have hl : '\n' ∉ l := fun hx => h (List.mem_cons_of_mem _ hx)
      rw [List.cons_append]
      show splitlinesGo (c :: (l ++ r)) acc = _
      rw [splitlinesGo, if_neg hc, ih r (acc ++ [c]) hl, ← List.append_cons]

theorem pySplitlines_joinNL : ∀ (L : List Str), (∀ s ∈ L, '\n' ∉ s) → L ≠ [] →
    L.getLast? ≠ some [] → pySplitlines (joinNL L) = L := by
  intro L
  induction L with
  | nil => intro _ h _; exact absurd rfl h
  | cons x L' ih =>
      intro hnl _ hlast
      have hx : '\n' ∉ x := hnl x (List.mem_cons_self _ _)
      cases L' with
      | nil =>
          rw [joinNL, intercalate_one]
          unfold pySplitlines
          rw [← List.append_nil x, splitlinesGo_nonl x [] [] hx, List.nil_append,
            splitlinesGo]
          have hxe : x ≠ [] := by
            intro he
            apply hlast
            rw [he]
            rfl
          rw [if_neg hxe, List.append_nil]
      | cons y L'' =>
          have hjoin : joinNL (x :: y :: L'') = x ++ '\n' :: joinNL (y :: L'') := by
            rw [joinNL, intercalate_cons_two]
            simp [joinNL]
          rw [hjoin]
          unfold pySplitlines
          rw [splitlinesGo_nonl x ('\n' :: joinNL (y :: L'')) [] hx, List.nil_append]
          have hstep : splitlinesGo ('\n' :: joinNL (y :: L'')) x =
              x :: splitlinesGo (joinNL (y :: L'')) [] := by
            rw [splitlinesGo, if_pos rfl]
          rw [hstep]
          have hnl' : ∀ s ∈ y :: L'', '\n' ∉ s :=
            fun s hs => hnl s (List.mem_cons_of_mem _ hs)
          have hlast' : (y :: L'').getLast? ≠ some [] := by
            rwa [List.getLast?_cons_cons] at hlast
          have := ih hnl' (by simp) hlast'
          unfold pySplitlines at this
          rw [this]

/-! ### C1: frontmatter splitting -/

/-- C1: a document that begins with a two-`---`-delimited frontmatter block
followed by `N` content slides separated by further `---` lines splits into
exactly `N + 1` segments, segment 0 being the full frontmatter block with
both delimiter lines. -/
theorem C1_frontmatter_split (fm : List Str) (blocks : List (List Str))
    (hfm : NoSep fm)
    (hb : ∀ b ∈ blocks, b ≠ [] ∧ NoSep b)
    (hnl : ∀ s ∈ dashLine :: (fm ++ (dashLine :: List.intercalate [dashLine] blocks)), '\n' ∉ s)
    (hlast : (dashLine :: (fm ++ (dashLine :: List.intercalate [dashLine] blocks))).getLast? ≠
      some []) :
    splitSlides (joinNL (dashLine :: (fm ++ (dashLine :: List.intercalate [dashLine] blocks)))) =
      joinNL (dashLine :: (fm ++ [dashLine])) :: blocks.map joinNL ∧
    (splitSlides
      (joinNL (dashLine :: (fm ++ (dashLine :: List.intercalate [dashLine] blocks))))).length =
      blocks.length + 1 := by
  have hsplit := pySplitlines_joinNL _ hnl (by simp) hlast
  have hmaster := splitSlidesL_master [] fm (List.intercalate [dashLine] blocks)
    dashLine dashLine (fun s hs => absurd hs (List.not_mem_nil s)) hfm
    isSepLine_dashLine isSepLine_dashLine
  rw [List.nil_append, List.nil_append] at hmaster
  unfold splitSlides
  rw [hsplit, hmaster, contentSegs_intercalate blocks hb]
  constructor
  · rw [List.map_cons]
  · simp

/-- C1 witness: a concrete frontmatter document with two content slides. -/
theorem C1_witness :
    splitSlides (joinNL (dashLine :: ([lit "marp: true"] ++ (dashLine ::
        List.intercalate [dashLine] [[lit "# A"], [lit "body", lit "x"]])))) =
      joinNL (dashLine :: ([lit "marp: true"] ++ [dashLine])) ::
        ([[lit "# A"], [lit "body", lit "x"]] : List (List Str)).map joinNL ∧
    (splitSlides (joinNL (dashLine :: ([lit "marp: true"] ++ (dashLine ::
        List.intercalate [dashLine] [[lit "# A"], [lit "body", lit "x"]]))))).length =
      ([[lit "# A"], [lit "body", lit "x"]] : List (List Str)).length + 1 :=
  C1_frontmatter_split [lit "marp: true"] [[lit "# A"], [lit "body", lit "x"]]
    (by decide) (by decide) (by decide) (by decide)

/-! ### C2: documents without frontmatter -/

/-- C2 counterexample: the document `A\n---\nB\n---\nC` has no frontmatter,
yet `_split_slides` consumes its two `---` lines as frontmatter delimiters:
the result is the 2 segments `["A\n---\nB\n---", "C"]`, not the claimed 3
segments `A`, `B`, `C`, and segment 0 contains `---` lines. -/
theorem C2_counterexample :
    splitSlides (lit "A\n---\nB\n---\nC") = [lit "A\n---\nB\n---", lit "C"] ∧
    (splitSlides (lit "A\n---\nB\n---\nC")).length ≠ 3 ∧
    containsSub (lit "---") ((splitSlides (lit "A\n---\nB\n---\nC")).headI) = true := by
  decide

/-- C2 (amended): the first two `---` lines of any document are consumed as
frontmatter delimiters wherever they occur — all content up to and
including the second `---` line becomes segment 0 — and only later `---`
lines act as plain separators; a document with no `---` line at all yields
the single-element result `[whole document]` without error. -/
theorem C2_amended (lines pre mid : List Str) (blocks : List (List Str))
    (h1 : NoSep lines) (h2 : lines ≠ [])
    (h3 : ∀ s ∈ lines, '\n' ∉ s) (h4 : lines.getLast? ≠ some [])
    (h5 : NoSep pre) (h6 : NoSep mid)
    (h7 : ∀ b ∈ blocks, b ≠ [] ∧ NoSep b)
    (h8 : ∀ s ∈ pre ++ (dashLine :: (mid ++ (dashLine :: List.intercalate [dashLine] blocks))),
      '\n' ∉ s)
    (h9 : (pre ++ (dashLine :: (mid ++ (dashLine :: List.intercalate [dashLine] blocks)))).getLast? ≠
      some []) :
    splitSlides (joinNL lines) = [joinNL lines] ∧
    splitSlides
        (joinNL (pre ++ (dashLine :: (mid ++ (dashLine :: List.intercalate [dashLine] blocks))))) =
      joinNL (pre ++ (dashLine :: (mid ++ [dashLine]))) :: blocks.map joinNL := by
  constructor
  · have hsplit := pySplitlines_joinNL lines h3 h2 h4
    unfold splitSlides
    rw [hsplit, splitSlidesL_nosep lines h1, if_neg h2, List.map_cons, List.map_nil]
  · have hsplit := pySplitlines_joinNL _ h8 (by simp) h9
    have hmaster := splitSlidesL_master pre mid (List.intercalate [dashLine] blocks)
      dashLine dashLine h5 h6 isSepLine_dashLine isSepLine_dashLine
    unfold splitSlides
    rw [hsplit, hmaster, contentSegs_intercalate blocks h7, List.map_cons]

/-- C2 witness: the amended statement at concrete documents. -/
theorem C2_witness :
    splitSlides (joinNL [lit "title only"]) = [joinNL [lit "title only"]] ∧
    splitSlides (joinNL ([lit "A"] ++ (dashLine :: ([lit "B"] ++ (dashLine ::
        List.intercalate [dashLine] [[lit "C"]]))))) =
      joinNL ([lit "A"] ++ (dashLine :: ([lit "B"] ++ [dashLine]))) ::
        ([[lit "C"]] : List (List Str)).map joinNL :=
  C2_amended [lit "title only"] [lit "A"] [lit "B"] [[lit "C"]]
    (by decide) (by decide) (by decide) (by decide) (by decide) (by decide)
    (by decide) (by decide) (by decide)

/-! ### C8 (Markdown side): re-splitting the rejoined segments -/

theorem splitlinesGo_no_newline :
    ∀ (cs : Str) (acc : Str), '\n' ∉ acc →
      ∀ line ∈ splitlinesGo cs acc, '\n' ∉ line := by
  intro cs
  induction cs with
  | nil =>
      intro acc hacc line hline
      rw [splitlinesGo] at hline
      by_cases he : acc = []
      · rw [if_pos he] at hline
        cases hline
      · rw [if_neg he] at hline
        rcases List.mem_singleton.mp hline with rfl
        exact hacc
  | cons c rest ih =>
      intro acc hacc line hline
      rw [splitlinesGo] at hline
      by_cases hc : c = '\n'
      · rw [if_pos hc] at hline
        rcases List.mem_cons.mp hline with rfl | hm
        · exact hacc
        · exact ih [] (List.not_mem_nil _) line hm
      · rw [if_neg hc] at hline
        refine ih (acc ++ [c]) ?_ line hline
        intro hmem
        rcases List.mem_append.mp hmem with h | h
        · exact hacc h
        · exact hc (List.mem_singleton.mp h).symm

theorem pySplitlines_no_newline (s : Str) :
    ∀ line ∈ pySplitlines s, '\n' ∉ line :=
  splitlinesGo_no_newline s [] (List.not_mem_nil _)

theorem splitAux_lines_mem :
    ∀ (ls cur : List Str) (i f : Bool) (seg : List Str),
      seg ∈ splitAux ls cur i f → ∀ x ∈ seg, x ∈ cur ∨ x ∈ ls := by
  intro ls
  induction ls with
  | nil =>
      intro cur i f seg hseg x hx
      rw [splitAux_nil] at hseg
      by_cases he : cur = []
      · rw [if_pos he] at hseg
        cases hseg
      · rw [if_neg he] at hseg
        rcases List.mem_singleton.mp hseg with rfl
        exact Or.inl hx
  | cons l rest ih =>
      intro cur i f seg hseg x hx
      have step : x ∈ cur ++ [l] ∨ x ∈ rest → x ∈ cur ∨ x ∈ l :: rest := by
        rintro (h | h)
        · rcases List.mem_append.mp h with h | h
          · exact Or.inl h
          · exact Or.inr (List.mem_cons.mpr (Or.inl (List.mem_singleton.mp h)))
        · exact Or.inr (List.mem_cons_of_mem _ h)
      by_cases hsep : isSepLine l = true
      · rcases hf : (l :: rest, cur, i, f) with _
        by_cases hdone : f = true
        · subst hdone
          rw [splitAux_sep_done l rest cur i hsep] at hseg
          by_cases he : cur = []
          · rw [if_pos he] at hseg
            rcases ih [] i true seg hseg x hx with h | h
            · cases h
            · exact Or.inr (List.mem_cons_of_mem _ h)
          · rw [if_neg he] at hseg
            rcases List.mem_cons.mp hseg with rfl | hm
            · exact Or.inl hx
            · rcases ih [] i true seg hm x hx with h | h
              · cases h
              · exact Or.inr (List.mem_cons_of_mem _ h)
        · have hf2 : f = false := by
            cases f
            · rfl
            · exact absurd rfl hdone
          subst hf2
          by_cases hin : i = true
          · subst hin
            rw [splitAux_sep_close l rest cur hsep] at hseg
            rcases List.mem_cons.mp hseg with rfl | hm
            · exact step (Or.inl hx)
            · rcases ih [] false true seg hm x hx with h | h
              · cases h
              · exact Or.inr (List.mem_cons_of_mem _ h)
          · have hi2 : i = false := by
              cases i
              · rfl
              · exact absurd rfl hin
            subst hi2
            rw [splitAux_sep_open l rest cur hsep] at hseg
            exact step (ih (cur ++ [l]) true false seg hseg x hx)
      · have hsep' : isSepLine l = false := by
          cases hq : isSepLine l
          · rfl
          · exact absurd hq hsep
        rw [splitAux_nosep l rest cur i f hsep'] at hseg
        exact step (ih (cur ++ [l]) i f seg hseg x hx)

theorem contentSegs_props :
    ∀ (ls cur : List Str), NoSep cur →
      ∀ seg ∈ splitAux ls cur false true, seg ≠ [] ∧ NoSep seg := by
  intro ls
  induction ls with
  | nil =>
      intro cur hc seg hseg
      rw [splitAux_nil] at hseg
      by_cases he : cur = []
      · rw [if_pos he] at hseg
        cases hseg
      · rw [if_neg he] at hseg
        rcases List.mem_singleton.mp hseg with rfl
        exact ⟨he, hc⟩
  | cons l rest ih =>
      intro cur hc seg hseg
      by_cases hsep : isSepLine l = true
      · rw [splitAux_sep_done l rest cur false hsep] at hseg
        by_cases he : cur = []
        · rw [if_pos he] at hseg
          exact ih [] (fun s hs => absurd hs (List.not_mem_nil s)) seg hseg
        · rw [if_neg he] at hseg
          rcases List.mem_cons.mp hseg with rfl | hm
          · exact ⟨he, hc⟩
          · exact ih [] (fun s hs => absurd hs (List.not_mem_nil s)) seg hm
      · have hsep' : isSepLine l = false := by
          cases hq : isSepLine l
          · rfl
          · exact absurd hq hsep
        rw [splitAux_nosep l rest cur false true hsep'] at hseg
        refine ih (cur ++ [l]) ?_ seg hseg
        intro s hs
        rcases List.mem_append.mp hs with h | h
        · exact hc s h
        · rcases List.mem_singleton.mp h with rfl
          exact hsep'

theorem firstSep_decomp (ls : List Str) :
    (∃ p s r, NoSep p ∧ isSepLine s = true ∧ ls = p ++ (s :: r)) ∨ NoSep ls := by
  induction ls with
  | nil => exact Or.inr (fun s hs => absurd hs (List.not_mem_nil s))
  | cons l rest ih =>
      by_cases hsep : isSepLine l = true
      · exact Or.inl ⟨[], l, rest, fun s hs => absurd hs (List.not_mem_nil s), hsep, rfl⟩
      · have hsep' : isSepLine l = false := by
          cases hq : isSepLine l
          · rfl
          · exact absurd hq hsep
        rcases ih with ⟨p, s, r, hp, hs, rfl⟩ | hns
        · refine Or.inl ⟨l :: p, s, r, ?_, hs, rfl⟩
          intro x hx
          rcases List.mem_cons.mp hx with rfl | hxp
          · exact hsep'
          · exact hp x hxp
        · refine Or.inr ?_
          intro x hx
          rcases List.mem_cons.mp hx with rfl | hxp
          · exact hsep'
          · exact hns x hxp

/-- Full shape analysis of `splitSlidesL`. -/
theorem splitSlidesL_cases (ls : List Str) :
    (NoSep ls ∧ splitSlidesL ls = if ls = [] then [] else [ls]) ∨
    (splitSlidesL ls = [ls] ∧ ls ≠ []) ∨
    (∃ p s1 m s2 r, NoSep p ∧ NoSep m ∧ isSepLine s1 = true ∧ isSepLine s2 = true ∧
      ls = p ++ (s1 :: (m ++ (s2 :: r))) ∧
      splitSlidesL ls = (p ++ (s1 :: (m ++ [s2]))) :: contentSegs r) := by
  rcases firstSep_decomp ls with ⟨p, s1, q, hp, hs1, rfl⟩ | hns
  · rcases firstSep_decomp q with ⟨m, s2, r, hm, hs2, rfl⟩ | hq
    · exact Or.inr (Or.inr ⟨p, s1, m, s2, r, hp, hm, hs1, hs2, rfl,
        splitSlidesL_master p m r s1 s2 hp hm hs1 hs2⟩)
    · exact Or.inr (Or.inl ⟨splitSlidesL_oneSep p q s1 hp hq hs1, by simp⟩)
  · exact Or.inl ⟨hns, splitSlidesL_nosep ls hns⟩

theorem joinNL_cons (a : Str) (X : List Str) (hX : X ≠ []) :
    joinNL (a :: X) = a ++ '\n' :: joinNL X := by
  cases X with
  | nil => exact absurd rfl hX
  | cons b X' =>
      rw [joinNL, intercalate_cons_two]
      rw [List.append_assoc]
      rfl

theorem joinNL_append (A B : List Str) (hA : A ≠ []) (hB : B ≠ []) :
    joinNL (A ++ B) = joinNL A ++ '\n' :: joinNL B := by
  induction A with
  | nil => exact absurd rfl hA
  | cons a A' ih =>
      cases hA' : A' with
      | nil =>
          subst hA'
          rw [List.singleton_append, joinNL_cons a B hB]
          have h1 : joinNL [a] = a := intercalate_one ['\n'] a
          rw [h1]
      | cons x xs =>
          have hA'ne : A' ≠ [] := by rw [hA']; simp
          rw [← hA']
          have hAB : A' ++ B ≠ [] := by
            intro h
            exact hB (List.append_eq_nil.mp h).2
          rw [List.cons_append, joinNL_cons a (A' ++ B) hAB, ih hA'ne,
            joinNL_cons a A' hA'ne]
          simp

theorem getLast?_append_right {α} (a b : List α) (hb : b ≠ []) :
    (a ++ b).getLast? = b.getLast? := by
  induction a with
  | nil => rfl
  | cons c a' ih =>
      have hab : a' ++ b ≠ [] := by
        intro h
        exact hb (List.append_eq_nil.mp h).2
      cases he : a' ++ b with
      | nil => exact absurd he hab
      | cons z zs =>
          rw [List.cons_append, he, List.getLast?_cons_cons, ← he, ih]

theorem intercalate_ne_nil {α} (sep : List α) (x : List α) (rest : List (List α))
    (hx : x ≠ []) : List.intercalate sep (x :: rest) ≠ [] := by
  cases rest with
  | nil =>
      rw [intercalate_one]
      exact hx
  | cons y ys =>
      rw [intercalate_cons_two]
      intro h
      exact hx (List.append_eq_nil.mp (List.append_eq_nil.mp h).1).1

theorem intercalate_getLast {α} (sep : List α) :
    ∀ (LS : List (List α)), LS ≠ [] → (∀ seg ∈ LS, seg ≠ []) →
      (List.intercalate sep LS).getLast? = (LS.getLastD []).getLast? := by
  intro LS
  induction LS with
  | nil => intro h _; exact absurd rfl h
  | cons x LS' ih =>
      intro _ hne
      cases LS' with
      | nil =>
          rw [intercalate_one]
          rfl
      | cons y LS'' =>
          have hy : y ≠ [] := hne y (List.mem_cons_of_mem _ (List.mem_cons_self _ _))
          have hT : List.intercalate sep (y :: LS'') ≠ [] := intercalate_ne_nil sep y LS'' hy
          rw [intercalate_cons_two, List.append_assoc, getLast?_append_right _ _
            (by intro h; exact hT (List.append_eq_nil.mp h).2),
            getLast?_append_right _ _ hT,
            ih (by simp) (fun seg hs => hne seg (List.mem_cons_of_mem _ hs))]
          simp [List.getLastD_cons]

/-- Joining segments (as strings) with `\n---\n` equals joining their line
lists with a `---` line inserted between segments, then joining with
newlines. -/
theorem rejoin_lines :
    ∀ (LS : List (List Str)), (∀ seg ∈ LS, seg ≠ []) →
      List.intercalate (lit "\n---\n") (LS.map joinNL) =
        joinNL (List.intercalate [dashLine] LS) := by
  intro LS
  induction LS with
  | nil => intro _; rfl
  | cons x LS' ih =>
      intro hne
      cases LS' with
      | nil =>
          rw [List.map_cons, List.map_nil, intercalate_one, intercalate_one]
      | cons y LS'' =>
          have hx : x ≠ [] := hne x (List.mem_cons_self _ _)
          have hy : y ≠ [] := hne y (List.mem_cons_of_mem _ (List.mem_cons_self _ _))
          have hrest : ∀ seg ∈ y :: LS'', seg ≠ [] :=
            fun seg hs => hne seg (List.mem_cons_of_mem _ hs)
          have hT : List.intercalate [dashLine] (y :: LS'') ≠ [] :=
            intercalate_ne_nil [dashLine] y LS'' hy
          rw [List.map_cons, List.map_cons, intercalate_cons_two,
            show (joinNL y :: List.map joinNL LS'') = List.map joinNL (y :: LS'') from
              (List.map_cons joinNL y LS'').symm,
            ih hrest, intercalate_cons_two]
          have hdT : [dashLine] ++ List.intercalate [dashLine] (y :: LS'') ≠ [] := by
            simp
          conv_rhs => rw [List.append_assoc]
          rw [joinNL_append x _ hx hdT,
            joinNL_append [dashLine] _ (by simp) hT]
          have hdl : joinNL [dashLine] = dashLine := intercalate_one ['\n'] dashLine
          rw [hdl, List.append_assoc]
          rfl

theorem noSep_nil : NoSep [] := fun s hs => absurd hs (List.not_mem_nil s)

theorem mem_intercalate_dash (x : Str) :
    ∀ (LS : List (List Str)), x ∈ List.intercalate [dashLine] LS →
      x = dashLine ∨ ∃ seg ∈ LS, x ∈ seg := by
  intro LS
  induction LS with
  | nil =>
      intro h
      simp [List.intercalate, List.intersperse] at h
  | cons a LS' ih =>
      cases LS' with
      | nil =>
          rw [intercalate_one]
          intro h
          exact Or.inr ⟨a, List.mem_cons_self _ _, h⟩
      | cons b ls =>
          rw [intercalate_cons_two]
          intro h
          rcases List.mem_append.mp h with h1 | h2
          · rcases List.mem_append.mp h1 with ha | hd
            · exact Or.inr ⟨a, List.mem_cons_self _ _, ha⟩
            · exact Or.inl (List.mem_singleton.mp hd)
          · rcases ih h2 with hd | ⟨seg, hseg, hx⟩
            · exact Or.inl hd
            · exact Or.inr ⟨seg, List.mem_cons_of_mem _ hseg, hx⟩

theorem resplit_single (L : List Str) (heq : splitSlidesL L = [L]) (hne : L ≠ [])
    (hnl : ∀ line ∈ L, '\n' ∉ line) (hlast : L.getLast? ≠ some []) :
    splitSlides (List.intercalate (lit "\n---\n") ((splitSlidesL L).map joinNL)) =
      (splitSlidesL L).map joinNL := by
  rw [heq, List.map_cons, List.map_nil, intercalate_one]
  unfold splitSlides
  rw [pySplitlines_joinNL L hnl hne hlast, heq, List.map_cons, List.map_nil]

/-- Re-splitting the `\n---\n`-rejoined segments of `_split_slides`
reproduces the segments, provided the final segment does not end in a
blank line. -/
theorem mdRoundTrip (t : Str)
    (hlast : ((splitSlidesL (pySplitlines t)).getLastD []).getLast? ≠ some ([] : Str)) :
    splitSlides (List.intercalate (lit "\n---\n") (splitSlides t)) = splitSlides t := by
  have hnl : ∀ line ∈ pySplitlines t, '\n' ∉ line := pySplitlines_no_newline t
  have hview : splitSlides t = (splitSlidesL (pySplitlines t)).map joinNL := rfl
  rcases splitSlidesL_cases (pySplitlines t) with ⟨hns, heq⟩ | ⟨heq, hne⟩ |
    ⟨p, s1, m, s2, r, hp, hm, hs1, hs2, hshape, heq⟩
  · by_cases hLnil : pySplitlines t = []
    · rw [hview, heq, if_pos hLnil]
      rfl
    · have heq' : splitSlidesL (pySplitlines t) = [pySplitlines t] := by
        rw [heq, if_neg hLnil]
      have hlast' : (pySplitlines t).getLast? ≠ some [] := by
        rw [heq'] at hlast
        simpa using hlast
      rw [hview]
      exact resplit_single _ heq' hLnil hnl hlast'
  · have hlast' : (pySplitlines t).getLast? ≠ some [] := by
      rw [heq] at hlast
      simpa using hlast
    rw [hview]
    exact resplit_single _ heq hne hnl hlast'
  · have hCS : ∀ seg ∈ contentSegs r, seg ≠ [] ∧ NoSep seg :=
      fun seg hs => contentSegs_props r [] noSep_nil seg hs
    have hseg0ne : (p ++ (s1 :: (m ++ [s2]))) ≠ [] := by simp
    have hallne : ∀ seg ∈ (p ++ (s1 :: (m ++ [s2]))) :: contentSegs r, seg ≠ [] := by
      intro seg hs
      rcases List.mem_cons.mp hs with rfl | hm2
      · exact hseg0ne
      · exact (hCS seg hm2).1
    have hlinesorig : ∀ seg ∈ (p ++ (s1 :: (m ++ [s2]))) :: contentSegs r,
        ∀ x ∈ seg, x ∈ pySplitlines t := by
      intro seg hs x hx
      have : seg ∈ splitSlidesL (pySplitlines t) := by
        rw [heq]
        exact hs
      rcases splitAux_lines_mem (pySplitlines t) [] false false seg this x hx with h | h
      · cases h
      · exact h
    have hRnl : ∀ line ∈ List.intercalate [dashLine]
        ((p ++ (s1 :: (m ++ [s2]))) :: contentSegs r), '\n' ∉ line := by
      intro line hline
      rcases mem_intercalate_dash line _ hline with rfl | ⟨seg, hseg, hx⟩
      · decide
      · exact hnl line (hlinesorig seg hseg line hx)
    have hRne : List.intercalate [dashLine]
        ((p ++ (s1 :: (m ++ [s2]))) :: contentSegs r) ≠ [] :=
      intercalate_ne_nil [dashLine] _ _ hseg0ne
    have hRlast : (List.intercalate [dashLine]
        ((p ++ (s1 :: (m ++ [s2]))) :: contentSegs r)).getLast? ≠ some [] := by
      rw [intercalate_getLast [dashLine] _ (by simp) hallne]
      rw [heq] at hlast
      exact hlast
    rw [hview, heq, rejoin_lines _ hallne]
    unfold splitSlides
    rw [pySplitlines_joinNL _ hRnl hRne hRlast]
    congr 1
    cases hCSv : contentSegs r with
    | nil =>
        rw [intercalate_one]
        have hm2 : splitSlidesL (p ++ (s1 :: (m ++ [s2]))) =
            (p ++ (s1 :: (m ++ [s2]))) :: contentSegs ([] : List Str) :=
          splitSlidesL_master p m [] s1 s2 hp hm hs1 hs2
        rw [hm2, contentSegs_nil]
    | cons c cs =>
        rw [intercalate_cons_two]
        have harg : (p ++ (s1 :: (m ++ [s2]))) ++ [dashLine] ++
            List.intercalate [dashLine] (c :: cs) =
            p ++ (s1 :: (m ++ (s2 ::
              (dashLine :: List.intercalate [dashLine] (c :: cs))))) := by
          simp
        rw [harg,
          splitSlidesL_master p m (dashLine :: List.intercalate [dashLine] (c :: cs))
            s1 s2 hp hm hs1 hs2,
          contentSegs_sep dashLine _ isSepLine_dashLine, ← hCSv,
          contentSegs_intercalate (contentSegs r) hCS]

/-! ### C8 (HTML side): `split('---')` and rejoining -/

/-- The string contains `---` as a substring. -/
def hasTripleDash : Str → Bool
  | [] => false
  | c :: rest => (decide (c = '-' ∧ rest.take 2 = ['-', '-'])) || hasTripleDash rest

/-- The string does not end with `-`. -/
def noTrailDash : Str → Bool
  | [] => true
  | [c] => decide (c ≠ '-')
  | _ :: rest => noTrailDash rest

theorem noTrailDash_cons_cons (a b : Char) (t : Str) :
    noTrailDash (a :: b :: t) = noTrailDash (b :: t) := rfl

theorem take_two_shape (l : Str) (h : l.take 2 = ['-', '-']) :
    ∃ l', l = '-' :: '-' :: l' := by
  cases l with
  | nil => simp at h
  | cons a l1 =>
      cases l1 with
      | nil => simp at h
      | cons b l2 =>
          simp only [List.take_succ_cons, List.take_zero, List.cons.injEq, and_true] at h
          obtain ⟨rfl, rfl⟩ := h
          exact ⟨l2, rfl⟩

theorem splitDashes_cons_pos (c : Char) (rest : Str)
    (h : c = '-' ∧ rest.take 2 = ['-', '-']) :
    splitDashes (c :: rest) = [] :: splitDashes (rest.drop 2) := by
  obtain ⟨rfl, ht⟩ := h
  obtain ⟨r', rfl⟩ := take_two_shape rest ht
  rfl

theorem splitDashes_cons_neg (c : Char) (rest : Str)
    (h : ¬(c = '-' ∧ rest.take 2 = ['-', '-'])) :
    splitDashes (c :: rest) =
      match splitDashes rest with
      | [] => [[c]]
      | s :: ss => (c :: s) :: ss := by
  apply splitDashes.eq_3
  intro r1 hc hr
  exact h ⟨hc, by rw [hr]; rfl⟩

theorem splitDashes_ne_nil (l : Str) : splitDashes l ≠ [] := by
  cases l with
  | nil => simp [splitDashes]
  | cons c rest =>
      by_cases hc : c = '-' ∧ rest.take 2 = ['-', '-']
      · rw [splitDashes_cons_pos c rest hc]
        simp
      · rw [splitDashes_cons_neg c rest hc]
        cases hsd : splitDashes rest with
        | nil => simp
        | cons s ss => simp [hsd]

theorem splitDashes_join : ∀ (l : Str),
    List.intercalate (lit "---") (splitDashes l) = l
  | [] => by
      rw [show splitDashes [] = [([] : Str)] from by simp [splitDashes], intercalate_one]
  | c :: rest => by
      by_cases hc : c = '-' ∧ rest.take 2 = ['-', '-']
      · rw [splitDashes_cons_pos c rest hc]
        have hs := splitDashes_ne_nil (rest.drop 2)
        cases hsd : splitDashes (rest.drop 2) with
        | nil => exact absurd hsd hs
        | cons s ss =>
            have hIH := splitDashes_join (rest.drop 2)
            rw [hsd] at hIH
            rw [intercalate_cons_two, List.nil_append, hIH]
            obtain ⟨rfl, htake⟩ := hc
            have hshape : rest = ['-', '-'] ++ rest.drop 2 := by
              conv_lhs => rw [← List.take_append_drop 2 rest]
              rw [htake]
            conv_rhs => rw [hshape]
            rfl
      · rw [splitDashes_cons_neg c rest hc]
        have hs := splitDashes_ne_nil rest
        cases hsd : splitDashes rest with
        | nil => exact absurd hsd hs
        | cons s ss =>
            have hIH := splitDashes_join rest
            rw [hsd] at hIH
            cases ss with
            | nil =>
                rw [intercalate_one] at hIH
                rw [intercalate_one, hIH]
            | cons y ys =>
                rw [intercalate_cons_two] at hIH
                rw [intercalate_cons_two, ← hIH]
                simp
termination_by l => l.length
decreasing_by
  all_goals simp [List.length_drop]
  all_goals omega

theorem splitDashes_first_prefix (l s : Str) (ss : List Str)
    (h : splitDashes l = s :: ss) : ∃ z, l = s ++ z := by
  have hj := splitDashes_join l
  rw [h] at hj
  cases ss with
  | nil =>
      rw [intercalate_one] at hj
      exact ⟨[], by rw [List.append_nil, hj]⟩
  | cons y ys =>
      rw [intercalate_cons_two] at hj
      exact ⟨lit "---" ++ List.intercalate (lit "---") (y :: ys), by
        rw [← hj]; simp⟩

theorem splitDashes_noTriple : ∀ (l : Str), ∀ seg ∈ splitDashes l,
    hasTripleDash seg = false
  | [] => by
      intro seg hseg
      rw [show splitDashes [] = [([] : Str)] from by simp [splitDashes]] at hseg
      rcases List.mem_singleton.mp hseg with rfl
      rfl
  | c :: rest => by
      intro seg hseg
      by_cases hc : c = '-' ∧ rest.take 2 = ['-', '-']
      · rw [splitDashes_cons_pos c rest hc] at hseg
        rcases List.mem_cons.mp hseg with rfl | hm
        · rfl
        · exact splitDashes_noTriple (rest.drop 2) seg hm
      · rw [splitDashes_cons_neg c rest hc] at hseg
        have hs := splitDashes_ne_nil rest
        cases hsd : splitDashes rest with
        | nil => exact absurd hsd hs
        | cons s ss =>
            rw [hsd] at hseg
            rcases List.mem_cons.mp hseg with rfl | hm
            · have hsrest : hasTripleDash s = false :=
                splitDashes_noTriple rest s (hsd ▸ List.mem_cons_self _ _)
              have hhead : ¬(c = '-' ∧ s.take 2 = ['-', '-']) := by
                rintro ⟨rfl, hst⟩
                obtain ⟨s', rfl⟩ := take_two_shape s hst
                obtain ⟨z, hz⟩ := splitDashes_first_prefix rest _ ss hsd
                apply hc
                refine ⟨rfl, ?_⟩
                rw [hz]
                rfl
              show hasTripleDash (c :: s) = false
              rw [hasTripleDash]
              simp [hhead, hsrest]
            · exact splitDashes_noTriple rest seg (hsd ▸ List.mem_cons_of_mem _ hm)
termination_by l => l.length
decreasing_by
  all_goals simp [List.length_drop]
  all_goals omega

theorem splitDashes_single : ∀ (x : Str), hasTripleDash x = false →
    splitDashes x = [x]
  | [] => fun _ => by simp [splitDashes]
  | c :: rest => by
      intro h
      rw [hasTripleDash, Bool.or_eq_false_iff, decide_eq_false_iff_not] at h
      rw [splitDashes_cons_neg c rest h.1, splitDashes_single rest h.2]

theorem splitDashes_append_sep : ∀ (p r : Str), hasTripleDash p = false →
    noTrailDash p = true →
    splitDashes (p ++ ('-' :: '-' :: '-' :: r)) = p :: splitDashes r
  | [], r, _, _ => by
      rw [List.nil_append]
      rfl
  | c :: p', r, ht, hd => by
      rw [hasTripleDash, Bool.or_eq_false_iff, decide_eq_false_iff_not] at ht
      have hd' : noTrailDash p' = true := by
        cases p' with
        | nil => rfl
        | cons d p'' => rw [← noTrailDash_cons_cons c d p'']; exact hd
      have hcond : ¬(c = '-' ∧ (p' ++ ('-' :: '-' :: '-' :: r)).take 2 = ['-', '-']) := by
        rintro ⟨rfl, htake⟩
        cases p' with
        | nil =>
            simp [noTrailDash] at hd
        | cons d p'' =>
            cases p'' with
            | nil =>
                have : d = '-' := by
                  simpa using congrArg List.headI htake
                subst this
                simp [noTrailDash] at hd
            | cons d2 p''' =>
                apply ht.1
                refine ⟨rfl, ?_⟩
                simpa using htake
      rw [List.cons_append, splitDashes_cons_neg c _ hcond,
        splitDashes_append_sep p' r ht.2 hd']

theorem splitDashes_intercalate : ∀ (parts : List Str), parts ≠ [] →
    (∀ x ∈ parts, hasTripleDash x = false ∧ noTrailDash x = true) →
    splitDashes (List.intercalate (lit "---") parts) = parts := by
  intro parts
  induction parts with
  | nil => intro h _; exact absurd rfl h
  | cons x parts' ih =>
      intro _ hall
      have hx := hall x (List.mem_cons_self _ _)
      cases parts' with
      | nil =>
          rw [intercalate_one]
          exact splitDashes_single x hx.1
      | cons y ps =>
          rw [intercalate_cons_two, List.append_assoc,
            show lit "---" ++ List.intercalate (lit "---") (y :: ps) =
              '-' :: '-' :: '-' :: List.intercalate (lit "---") (y :: ps) from rfl,
            splitDashes_append_sep x _ hx.1 hx.2,
            ih (by simp) (fun z hz => hall z (List.mem_cons_of_mem _ hz))]

theorem lengthDropWhileLe (p : Char → Bool) (l : Str) :
    (l.dropWhile p).length ≤ l.length := by
  induction l with
  | nil => simp
  | cons a t ih =>
      rw [List.dropWhile_cons]
      split
      · exact Nat.le_trans ih (Nat.le_succ _)
      · exact Nat.le_refl _

theorem dropWhile_head_not (p : Char → Bool) :
    ∀ (l : Str) (c : Char) (rest : Str), l.dropWhile p = c :: rest → p c = false := by
  intro l
  induction l with
  | nil => intro c rest h; simp [List.dropWhile] at h
  | cons a l' ih =>
      intro c rest h
      by_cases hp : p a = true
      · rw [List.dropWhile_cons, if_pos hp] at h
        exact ih c rest h
      · rw [List.dropWhile_cons, if_neg hp] at h
        cases h
        cases hq : p a
        · rfl
        · exact absurd hq hp

theorem takeWhile_nil_head (p : Char → Bool) (l : Str) (h : l.takeWhile p = [])
    (c : Char) (hc : l.head? = some c) : p c = false := by
  cases l with
  | nil => cases hc
  | cons a l' =>
      cases hc
      by_cases hp : p c = true
      · rw [List.takeWhile_cons, if_pos hp] at h
        cases h
      · cases hq : p c
        · rfl
        · exact absurd hq hp

theorem head?_append_left {α} (a b : List α) (ha : a ≠ []) :
    (a ++ b).head? = a.head? := by
  cases a with
  | nil => exact absurd rfl ha
  | cons x a' => rfl

theorem pyStrip_eq_self_of (X : Str)
    (hh : ∀ c, X.head? = some c → isWs c = false)
    (hl : ∀ c, X.getLast? = some c → isWs c = false) : pyStrip X = X := by
  cases X with
  | nil => rfl
  | cons c X' =>
      have hc : isWs c = false := hh c rfl
      unfold pyStrip
      rw [List.dropWhile_cons, if_neg (by simp [hc])]
      have hrev : (c :: X').reverse.dropWhile isWs = (c :: X').reverse := by
        cases hr : (c :: X').reverse with
        | nil => simp at hr
        | cons d R' =>
            have hd : isWs d = false := by
              apply hl d
              rw [← List.head?_reverse, hr]
              rfl
            rw [List.dropWhile_cons, if_neg (by simp [hd])]
      rw [hrev, List.reverse_reverse]

theorem dropWhile_eq_strip_append (l : Str) :
    ∃ b, l.dropWhile isWs = pyStrip l ++ b := by
  refine ⟨((l.dropWhile isWs).reverse.takeWhile isWs).reverse, ?_⟩
  conv_lhs => rw [← List.reverse_reverse (l.dropWhile isWs),
    ← List.takeWhile_append_dropWhile (p := isWs) (l := (l.dropWhile isWs).reverse)]
  rw [List.reverse_append]
  rfl

theorem pyStrip_decomp (l : Str) : ∃ a b, l = a ++ pyStrip l ++ b := by
  obtain ⟨b, hb⟩ := dropWhile_eq_strip_append l
  refine ⟨l.takeWhile isWs, b, ?_⟩
  conv_lhs => rw [← List.takeWhile_append_dropWhile (p := isWs) (l := l)]
  rw [hb, List.append_assoc]

theorem strip_fixed_bounds (p : Str) (hp : pyStrip p = p) (hne : p ≠ []) :
    (∀ c, p.head? = some c → isWs c = false) ∧
    (∀ c, p.getLast? = some c → isWs c = false) := by
  have hlen1 : (pyStrip p).length ≤ (p.dropWhile isWs).length := by
    unfold pyStrip
    rw [List.length_reverse]
    calc ((p.dropWhile isWs).reverse.dropWhile isWs).length
        ≤ (p.dropWhile isWs).reverse.length := lengthDropWhileLe _ _
      _ = (p.dropWhile isWs).length := List.length_reverse _
  have hlen2 : (p.dropWhile isWs).length ≤ p.length := lengthDropWhileLe _ _
  have hEq : (pyStrip p).length = p.length := by rw [hp]
  have htw : p.takeWhile isWs = [] := by
    have hsplit := List.takeWhile_append_dropWhile (p := isWs) (l := p)
    have hlen := congrArg List.length hsplit
    rw [List.length_append] at hlen
    have : (p.takeWhile isWs).length = 0 := by omega
    exact List.length_eq_zero.mp this
  have hDp : p.dropWhile isWs = p := by
    have hsplit := List.takeWhile_append_dropWhile (p := isWs) (l := p)
    rw [htw, List.nil_append] at hsplit
    exact hsplit
  constructor
  · exact fun c hc => takeWhile_nil_head _ p htw c hc
  · have h1 : pyStrip p = (p.reverse.dropWhile isWs).reverse := by
      unfold pyStrip
      rw [hDp]
    have hrev : p.reverse.dropWhile isWs = p.reverse := by
      have h2 : (p.reverse.dropWhile isWs).reverse = p := by rw [← h1, hp]
      have := congrArg List.reverse h2
      rwa [List.reverse_reverse] at this
    have htwr : p.reverse.takeWhile isWs = [] := by
      have hsplit := List.takeWhile_append_dropWhile (p := isWs) (l := p.reverse)
      rw [hrev] at hsplit
      have hlen := congrArg List.length hsplit
      rw [List.length_append] at hlen
      have : (p.reverse.takeWhile isWs).length = 0 := by omega
      exact List.length_eq_zero.mp this
    intro c hc
    apply takeWhile_nil_head isWs p.reverse htwr c
    rw [List.head?_reverse]
    exact hc

theorem pyStrip_idem (l : Str) : pyStrip (pyStrip l) = pyStrip l := by
  by_cases hne : pyStrip l = []
  · rw [hne]
    rfl
  · apply pyStrip_eq_self_of
    · intro c hc
      obtain ⟨b, hb⟩ := dropWhile_eq_strip_append l
      have hD : (l.dropWhile isWs).head? = some c := by
        rw [hb, head?_append_left _ _ hne, hc]
      cases hDv : l.dropWhile isWs with
      | nil => rw [hDv] at hD; cases hD
      | cons d rest =>
          rw [hDv] at hD
          cases hD
          exact dropWhile_head_not isWs l c rest hDv
    · intro c hc
      have h1 : (pyStrip l).getLast? =
          ((l.dropWhile isWs).reverse.dropWhile isWs).head? := by
        unfold pyStrip
        rw [List.getLast?_reverse]
      rw [h1] at hc
      cases hDv : (l.dropWhile isWs).reverse.dropWhile isWs with
      | nil => rw [hDv] at hc; cases hc
      | cons d rest =>
          rw [hDv] at hc
          cases hc
          exact dropWhile_head_not isWs _ c rest hDv

theorem hasTripleDash_cons (c : Char) (rest : Str) :
    hasTripleDash (c :: rest) =
      ((decide (c = '-' ∧ rest.take 2 = ['-', '-'])) || hasTripleDash rest) := rfl

theorem hasTriple_append_right (p b : Str) (h : hasTripleDash p = true) :
    hasTripleDash (p ++ b) = true := by
  induction p with
  | nil => simp [hasTripleDash] at h
  | cons c rest ih =>
      rw [hasTripleDash_cons, Bool.or_eq_true] at h
      rw [List.cons_append, hasTripleDash_cons, Bool.or_eq_true]
      rcases h with h | h
      · left
        simp only [decide_eq_true_eq] at h ⊢
        obtain ⟨hc, ht⟩ := h
        obtain ⟨rest', rfl⟩ := take_two_shape rest ht
        exact ⟨hc, rfl⟩
      · right
        exact ih h

theorem hasTriple_append_left (a p : Str) (h : hasTripleDash p = true) :
    hasTripleDash (a ++ p) = true := by
  induction a with
  | nil => exact h
  | cons c a' ih =>
      rw [List.cons_append, hasTripleDash_cons, Bool.or_eq_true]
      exact Or.inr ih

theorem hasTriple_false_of_decomp (a p b : Str)
    (h : hasTripleDash (a ++ p ++ b) = false) : hasTripleDash p = false := by
  cases hq : hasTripleDash p
  · rfl
  · rw [List.append_assoc] at h
    rw [hasTriple_append_left a (p ++ b) (hasTriple_append_right p b hq)] at h
    cases h

theorem mapStripId (P : List Str) (h : ∀ p ∈ P, pyStrip p = p) :
    P.map pyStrip = P := by
  induction P with
  | nil => rfl
  | cons x P' ih =>
      rw [List.map_cons, h x (List.mem_cons_self _ _),
        ih (fun p hp => h p (List.mem_cons_of_mem _ hp))]

theorem getLastD_mem {α} : ∀ (L : List α) (d : α), L ≠ [] → L.getLastD d ∈ L := by
  intro L
  induction L with
  | nil => intro d h; exact absurd rfl h
  | cons x L' ih =>
      intro d _
      cases hv : L' with
      | nil =>
          subst hv
          simp [List.getLastD_cons]
      | cons y L'' =>
          subst hv
          rw [List.getLastD_cons]
          exact List.mem_cons_of_mem _ (ih x (by simp))

theorem htmlSplit_facts (u : Str) : ∀ p ∈ htmlSplit u,
    p ≠ [] ∧ pyStrip p = p ∧ hasTripleDash p = false := by
  intro p hp
  unfold htmlSplit at hp
  obtain ⟨hmem, hne'⟩ := List.mem_filter.mp hp
  have hne : p ≠ [] := of_decide_eq_true hne'
  obtain ⟨q, hq, rfl⟩ := List.mem_map.mp hmem
  refine ⟨hne, pyStrip_idem q, ?_⟩
  have hqt : hasTripleDash q = false := splitDashes_noTriple (pyStrip u) q hq
  obtain ⟨a, b, hab⟩ := pyStrip_decomp q
  exact hasTriple_false_of_decomp a _ b (hab ▸ hqt)

/-- Re-splitting the `---`-rejoined segments of the HTML-mode split
reproduces the segments, provided no segment ends with `-` (joining can
otherwise create a fresh `---` occurrence at a boundary). -/
theorem htmlRoundTrip (u : Str)
    (hb : ∀ seg ∈ htmlSplit u, noTrailDash seg = true) :
    htmlSplit (List.intercalate (lit "---") (htmlSplit u)) = htmlSplit u := by
  cases hP : htmlSplit u with
  | nil => decide
  | cons p0 ps =>
      have hfacts : ∀ p ∈ p0 :: ps, p ≠ [] ∧ pyStrip p = p ∧ hasTripleDash p = false :=
        fun p hp => htmlSplit_facts u p (hP ▸ hp)
      have hnt : ∀ p ∈ p0 :: ps, noTrailDash p = true := fun p hp => hb p (hP ▸ hp)
      have hp0 := hfacts p0 (List.mem_cons_self _ _)
      have hlastmem : (p0 :: ps).getLastD [] ∈ p0 :: ps := getLastD_mem _ _ (by simp)
      have hplast := hfacts _ hlastmem
      have hXhead : ∀ c, (List.intercalate (lit "---") (p0 :: ps)).head? = some c →
          isWs c = false := by
        intro c hc
        have hXp : (List.intercalate (lit "---") (p0 :: ps)).head? = p0.head? := by
          cases ps with
          | nil => rw [intercalate_one]
          | cons y ys =>
              rw [intercalate_cons_two, List.append_assoc, head?_append_left _ _ hp0.1]
        exact (strip_fixed_bounds p0 hp0.2.1 hp0.1).1 c (hXp ▸ hc)
      have hXlast : ∀ c, (List.intercalate (lit "---") (p0 :: ps)).getLast? = some c →
          isWs c = false := by
        have hXl : (List.intercalate (lit "---") (p0 :: ps)).getLast? =
            ((p0 :: ps).getLastD []).getLast? :=
          intercalate_getLast (lit "---") (p0 :: ps) (by simp)
            (fun seg hs => (hfacts seg hs).1)
        intro c hc
        exact (strip_fixed_bounds _ hplast.2.1 hplast.1).2 c (hXl ▸ hc)
      have hXstrip : pyStrip (List.intercalate (lit "---") (p0 :: ps)) =
          List.intercalate (lit "---") (p0 :: ps) :=
        pyStrip_eq_self_of _ hXhead hXlast
      unfold htmlSplit
      rw [hXstrip,
        splitDashes_intercalate (p0 :: ps) (by simp)
          (fun x hx => ⟨(hfacts x hx).2.2, hnt x hx⟩),
        mapStripId _ (fun p hp => (hfacts p hp).2.1)]
      exact List.filter_eq_self.mpr (fun a ha => by simp [(hfacts a ha).1])

/-- C8 counterexample: for the input `a- --- -b`, the HTML-mode split
yields segments `a-` and `-b`; joining them with the original `---`
delimiter gives `a-----b`, whose `---`-segment decomposition (modulo
per-segment trimming) is `a`, `--b` — non-whitespace content has moved
across the delimiter, so the rejoined text is not equivalent to the input
modulo whitespace trimming. -/
theorem C8_counterexample :
    htmlSplit (lit "a- --- -b") = [lit "a-", lit "-b"] ∧
    List.intercalate (lit "---") (htmlSplit (lit "a- --- -b")) = lit "a-----b" ∧
    (splitDashes (lit "a-----b")).map pyStrip = [lit "a", lit "--b"] ∧
    (splitDashes (lit "a- --- -b")).map pyStrip ≠
      (splitDashes (lit "a-----b")).map pyStrip := by
  decide

/-- C8 (amended): the round trip holds at the segment level — re-splitting
the rejoined text yields exactly the original segments — for the Markdown
mode whenever the final segment does not end in a blank line, and for the
HTML mode whenever no segment ends with `-`. -/
theorem C8_amended (t u : Str)
    (hmd : ((splitSlidesL (pySplitlines t)).getLastD []).getLast? ≠ some ([] : Str))
    (hhtml : ∀ seg ∈ htmlSplit u, noTrailDash seg = true) :
    splitSlides (List.intercalate (lit "\n---\n") (splitSlides t)) = splitSlides t ∧
    htmlSplit (List.intercalate (lit "---") (htmlSplit u)) = htmlSplit u :=
  ⟨mdRoundTrip t hmd, htmlRoundTrip u hhtml⟩

/-- C8 witness: the amended statement at concrete inputs. -/
theorem C8_witness :
    splitSlides (List.intercalate (lit "\n---\n")
        (splitSlides (lit "---\nx\n---\nA\n---\nB"))) =
      splitSlides (lit "---\nx\n---\nA\n---\nB") ∧
    htmlSplit (List.intercalate (lit "---") (htmlSplit (lit "S1 --- S2"))) =
      htmlSplit (lit "S1 --- S2") :=
  C8_amended (lit "---\nx\n---\nA\n---\nB") (lit "S1 --- S2") (by decide) (by decide)

/-! ### C6: well-formedness of the generated SVG

A character-level XML well-formedness checker: a single root element,
properly nested and matching tags, `name="value"` attributes with
double-quoted values free of raw `<`/`&`, character data free of raw `<`
and of the forbidden sequence `]]>`, `&` only as a predefined or numeric
character entity, and every character inside the XML 1.0 `Char`
production. (Comments, processing instructions, doctypes, CDATA and
single-quoted attribute values are not accepted — the generated SVG uses
none of them — and attribute-name uniqueness is not checked.) -/

/-- Checker mode. -/
inductive XMode
  | content
  | tagOpen
  | openName (nm : Str)
  | inTag (nm : Str)
  | attrName (nm : Str)
  | attrEq (nm : Str)
  | attrVal (nm : Str)
  | selfSlash (nm : Str)
  | closeStart
  | closeName (nm : Str)
  | entity (acc : Str)
deriving DecidableEq

/-- Checker state: mode, stack of open element names, whether the root
element has been closed, and the length of the run of `]` characters just
read in the current character data (used to reject the forbidden `]]>`). -/
structure XmlSt where
  mode : XMode
  stack : List Str
  rootDone : Bool
  cdRun : Nat
deriving DecidableEq

/-- First character of an XML name. -/
def isNameStart (c : Char) : Bool := c.isAlpha || c = '_' || c = ':'

/-- Subsequent character of an XML name. -/
def isNameChar (c : Char) : Bool :=
  c.isAlpha || c.isDigit || c = '-' || c = '_' || c = ':' || c = '.'

/-- Predefined XML entities and decimal character references. -/
def entityOk (e : Str) : Bool :=
  e = lit "amp" || e = lit "lt" || e = lit "gt" || e = lit "quot" || e = lit "apos" ||
  (match e with
   | '#' :: ds => !ds.isEmpty && ds.all Char.isDigit
   | _ => false)

/-- The XML 1.0 `Char` production: `#x9 | #xA | #xD | [#x20-#xD7FF] |
[#xE000-#xFFFD] | [#x10000-#x10FFFF]` (the surrogate range is already
excluded by the `Char` type itself). -/
def xmlCharOk (c : Char) : Bool :=
  c = '\x09' || c = '\x0A' || c = '\x0D' ||
  ((0x20 ≤ c.toNat) && (c.toNat ≤ 0xD7FF)) ||
  ((0xE000 ≤ c.toNat) && (c.toNat ≤ 0xFFFD)) ||
  ((0x10000 ≤ c.toNat) && (c.toNat ≤ 0x10FFFF))

/-- The string contains the sequence `]]>`, which may not occur literally
in XML character data. -/
def hasCdataEnd : Str → Bool
  | [] => false
  | c :: rest => (decide (c = ']' ∧ rest.take 2 = [']', '>'])) || hasCdataEnd rest

/-- One checker transition; `none` rejects the document. -/
def xmlStep (st : XmlSt) (c : Char) : Option XmlSt :=
  if xmlCharOk c = false then none
  else match st.mode with
  | .content =>
      if c = '<' then
        if st.stack.isEmpty && st.rootDone then none
        else some { st with mode := .tagOpen, cdRun := 0 }
      else if c = '&' then
        if st.stack.isEmpty then none
        else some { st with mode := .entity [], cdRun := 0 }
      else if st.stack.isEmpty then
        if isWs c then some st else none
      else if c = ']' then some { st with cdRun := st.cdRun + 1 }
      else if c = '>' then
        if 2 ≤ st.cdRun then none else some { st with cdRun := 0 }
      else some { st with cdRun := 0 }
  | .tagOpen =>
      if c = '/' then some { st with mode := .closeStart }
      else if isNameStart c then some { st with mode := .openName [c] }
      else none
  | .openName nm =>
      if isNameChar c then some { st with mode := .openName (nm ++ [c]) }
      else if c = '>' then
        some { st with mode := .content, stack := nm :: st.stack, cdRun := 0 }
      else if c = '/' then some { st with mode := .selfSlash nm }
      else if isWs c then some { st with mode := .inTag nm }
      else none
  | .inTag nm =>
      if isWs c then some st
      else if c = '>' then
        some { st with mode := .content, stack := nm :: st.stack, cdRun := 0 }
      else if c = '/' then some { st with mode := .selfSlash nm }
      else if isNameStart c then some { st with mode := .attrName nm }
      else none
  | .attrName nm =>
      if isNameChar c then some st
      else if c = '=' then some { st with mode := .attrEq nm }
      else none
  | .attrEq nm =>
      if c = '"' then some { st with mode := .attrVal nm }
      else none
  | .attrVal nm =>
      if c = '"' then some { st with mode := .inTag nm }
      else if c = '<' ∨ c = '&' then none
      else some st
  | .selfSlash _ =>
      if c = '>' then
        some { st with mode := .content, cdRun := 0, rootDone := st.rootDone || st.stack.isEmpty }
      else none
  | .closeStart =>
      if isNameStart c then some { st with mode := .closeName [c] }
      else none
  | .closeName nm =>
      if isNameChar c then some { st with mode := .closeName (nm ++ [c]) }
      else if c = '>' then
        match st.stack with
        | [] => none
        | top :: rest =>
            if top = nm then
              some { mode := .content, stack := rest,
                     rootDone := st.rootDone || rest.isEmpty, cdRun := 0 }
            else none
      else none
  | .entity acc =>
      if c = ';' then
        if entityOk acc then some { st with mode := .content, cdRun := 0 } else none
      else if isNameChar c || c = '#' then some { st with mode := .entity (acc ++ [c]) }
      else none

/-- Initial checker state. -/
def xmlInit : XmlSt := ⟨XMode.content, [], false, 0⟩

/-- Fold step over an optional state (`none` is absorbing). -/
def xmlFoldStep (os : Option XmlSt) (c : Char) : Option XmlSt :=
  os.bind (fun st => xmlStep st c)

/-- Run the checker over a document. -/
def xmlRun (cs : Str) : Option XmlSt := cs.foldl xmlFoldStep (some xmlInit)

/-- Accept: all input consumed in character-data mode, all elements closed,
and exactly one root element seen. -/
def xmlAccept : Option XmlSt → Bool
  | some st => decide (st.mode = XMode.content) && st.stack.isEmpty && st.rootDone
  | none => false

/-- The document is well-formed XML. -/
def xmlWf (s : Str) : Bool := xmlAccept (xmlRun s)

theorem hasCdataEnd_cons (c : Char) (rest : Str) :
    hasCdataEnd (c :: rest) =
      ((decide (c = ']' ∧ rest.take 2 = [']', '>'])) || hasCdataEnd rest) := rfl

theorem hasCdEnd_append_left (a p : Str) (h : hasCdataEnd p = true) :
    hasCdataEnd (a ++ p) = true := by
  induction a with
  | nil => simpa using h
  | cons c a' ih =>
      rw [List.cons_append, hasCdataEnd_cons, Bool.or_eq_true]
      exact Or.inr ih

theorem hasCdEnd_false_tail (a l : Str) (h : hasCdataEnd (a ++ l) = false) :
    hasCdataEnd l = false := by
  by_contra hne
  rw [Bool.not_eq_false] at hne
  rw [hasCdEnd_append_left a l hne] at h
  simp at h

theorem xmlStep_plain (stk : List Str) (rd : Bool) (j : Nat) (c : Char)
    (h1 : c ≠ '<') (h2 : c ≠ '&') (hok : xmlCharOk c = true) (h3 : stk ≠ []) :
    xmlStep ⟨XMode.content, stk, rd, j⟩ c =
      (if c = ']' then some ⟨XMode.content, stk, rd, j + 1⟩
       else if c = '>' then
         (if 2 ≤ j then none else some ⟨XMode.content, stk, rd, 0⟩)
       else some ⟨XMode.content, stk, rd, 0⟩) := by
  have he : stk.isEmpty = false := by
    cases stk with
    | nil => exact absurd rfl h3
    | cons a b => rfl
  simp [xmlStep, h1, h2, he, hok]

theorem xmlFold_plain : ∀ (l : Str) (stk : List Str) (rd : Bool) (j : Nat),
    (∀ c ∈ l, c ≠ '<' ∧ c ≠ '&' ∧ xmlCharOk c = true) →
    hasCdataEnd (List.replicate j ']' ++ l) = false →
    stk ≠ [] →
    ∃ k, l.foldl xmlFoldStep (some ⟨XMode.content, stk, rd, j⟩) =
      some ⟨XMode.content, stk, rd, k⟩ := by
  intro l
  induction l with
  | nil => exact fun stk rd j _ _ _ => ⟨j, rfl⟩
  | cons c l' ih =>
      intro stk rd j hp hcd h3
      have hc := hp c (List.mem_cons_self _ _)
      have hp' : ∀ x ∈ l', x ≠ '<' ∧ x ≠ '&' ∧ xmlCharOk x = true :=
        fun x hx => hp x (List.mem_cons_of_mem _ hx)
      rw [List.foldl_cons,
        show xmlFoldStep (some ⟨XMode.content, stk, rd, j⟩) c =
          xmlStep ⟨XMode.content, stk, rd, j⟩ c from rfl,
        xmlStep_plain stk rd j c hc.1 hc.2.1 hc.2.2 h3]
      by_cases hbr : c = ']'
      · rw [if_pos hbr]
        refine ih stk rd (j + 1) hp' ?_ h3
        have hre : List.replicate (j + 1) ']' ++ l' =
            List.replicate j ']' ++ (c :: l') := by
          rw [hbr, List.replicate_succ', List.append_assoc]
          simp only [List.singleton_append]
        rw [hre]
        exact hcd
      · rw [if_neg hbr]
        by_cases hgt : c = '>'
        · rw [if_pos hgt]
          have hj : ¬ 2 ≤ j := by
            intro hj2
            obtain ⟨m, rfl⟩ : ∃ m, j = m + 2 := ⟨j - 2, by omega⟩
            have hsplit : List.replicate (m + 2) ']' ++ (c :: l') =
                List.replicate m ']' ++ (']' :: ']' :: c :: l') := by
              rw [show m + 2 = m + 1 + 1 from rfl, List.replicate_succ',
                List.replicate_succ', List.append_assoc, List.append_assoc]
              simp only [List.singleton_append]
            have htrue : hasCdataEnd
                (List.replicate m ']' ++ (']' :: ']' :: c :: l')) = true := by
              apply hasCdEnd_append_left
              rw [hgt]
              simp [hasCdataEnd_cons, List.take]
            rw [hsplit, htrue] at hcd
            simp at hcd
          rw [if_neg hj]
          refine ih stk rd 0 hp' ?_ h3
          rw [List.replicate_zero, List.nil_append]
          apply hasCdEnd_false_tail (List.replicate j ']' ++ [c])
          rw [List.append_assoc]
          exact hcd
        · rw [if_neg hgt]
          refine ih stk rd 0 hp' ?_ h3
          rw [List.replicate_zero, List.nil_append]
          apply hasCdEnd_false_tail (List.replicate j ']' ++ [c])
          rw [List.append_assoc]
          exact hcd

theorem containsSub_append_left (pat a b : Str) (h : containsSub pat a = true) :
    containsSub pat (a ++ b) = true := by
  induction a with
  | nil =>
      have hp : pat = [] := by
        cases pat with
        | nil => rfl
        | cons x xs => simp [containsSub, List.isPrefixOf] at h
      subst hp
      rw [List.nil_append]
      cases b <;> simp [containsSub, List.isPrefixOf]
  | cons c a' ih =>
      simp only [containsSub, Bool.or_eq_true] at h
      simp only [List.cons_append, containsSub, Bool.or_eq_true]
      rcases h with h | h
      · exact Or.inl (isPrefixOf_append_right pat (c :: a') b h)
      · exact Or.inr (ih h)

theorem containsSub_append_self (pat a : Str) : containsSub pat (a ++ pat) = true := by
  have := containsSub_of_decomp pat a []
  rwa [List.append_nil] at this

theorem firstTextLineGo_len_le : ∀ (ls : List Str), (firstTextLineGo ls).length ≤ 40 := by
  intro ls
  induction ls with
  | nil => simp [firstTextLineGo]
  | cons ln rest ih =>
      by_cases h : pyStrip (lstripHash (pyStrip ln)) = []
      · simpa [firstTextLineGo, h] using ih
      · rw [show firstTextLineGo (ln :: rest) =
            (if pyStrip (lstripHash (pyStrip ln)) = [] then firstTextLineGo rest
             else (pyStrip (lstripHash (pyStrip ln))).take 40) from rfl,
          if_neg h, List.length_take]
        omega

set_option maxRecDepth 400000

theorem xmlWf_svg_state (label : Str)
    (hplain : ∀ c ∈ label, c ≠ '<' ∧ c ≠ '&' ∧ xmlCharOk c = true)
    (hcd : hasCdataEnd label = false) (bg : Str)
    (hpre : (svgChunk1 ++ bg ++ svgChunk2).foldl xmlFoldStep (some xmlInit) =
      some ⟨XMode.content, [lit "text", lit "svg"], false, 0⟩) :
    xmlWf (svgChunk1 ++ bg ++ svgChunk2 ++ label ++ svgChunk3) = true := by
  unfold xmlWf xmlRun
  obtain ⟨k, hk⟩ := xmlFold_plain label [lit "text", lit "svg"] false 0 hplain
    (by simpa using hcd) (by simp)
  have hlt : xmlFoldStep (some ⟨XMode.content, [lit "text", lit "svg"], false, k⟩) '<' =
      some ⟨XMode.tagOpen, [lit "text", lit "svg"], false, 0⟩ := by
    show xmlStep ⟨XMode.content, [lit "text", lit "svg"], false, k⟩ '<' =
      some ⟨XMode.tagOpen, [lit "text", lit "svg"], false, 0⟩
    simp [xmlStep, show xmlCharOk '<' = true from by decide]
  rw [List.foldl_append, List.foldl_append, hpre, hk,
    show svgChunk3 = '<' :: lit "/text>\n</svg>" from rfl, List.foldl_cons, hlt]
  decide

/-- C6 (amended): the SVG placeholder is 1280×720, contains the palette
colour at `index % 5`, and embeds the at-most-40-character label taken
from the first non-empty heading-stripped line; it is well-formed XML
provided that label contains no raw `<` or `&`, no `]]>` sequence, and
only characters of the XML 1.0 `Char` production — the source performs no
XML escaping, so labels violating these conditions yield malformed
output (see the counterexample). -/
theorem C6_amended (block : Str) (idx : Nat)
    (hplain : ∀ c ∈ firstTextLine block, c ≠ '<' ∧ c ≠ '&' ∧ xmlCharOk c = true)
    (hcd : hasCdataEnd (firstTextLine block) = false) :
    xmlWf (svgContent (firstTextLine block) idx) = true ∧
    (firstTextLine block).length ≤ 40 ∧
    containsSub (lit "width=\"1280\" height=\"720\"")
      (svgContent (firstTextLine block) idx) = true ∧
    containsSub (svgPalette.getD (idx % svgPalette.length) [])
      (svgContent (firstTextLine block) idx) = true ∧
    containsSub (firstTextLine block) (svgContent (firstTextLine block) idx) = true := by
  refine ⟨?_, firstTextLineGo_len_le _, ?_, ?_, ?_⟩
  · unfold svgContent
    have h5 : idx % svgPalette.length < 5 := by
      have := Nat.mod_lt idx (y := svgPalette.length) (by decide)
      simpa using this
    have hcases : idx % svgPalette.length = 0 ∨ idx % svgPalette.length = 1 ∨
        idx % svgPalette.length = 2 ∨ idx % svgPalette.length = 3 ∨
        idx % svgPalette.length = 4 := by omega
    rcases hcases with hm | hm | hm | hm | hm <;> rw [hm] <;>
      exact xmlWf_svg_state _ hplain hcd _ (by decide)
  · unfold svgContent
    exact containsSub_append_left _ _ _ (containsSub_append_left _ _ _
      (containsSub_append_left _ _ _ (containsSub_append_left _ _ _ (by decide))))
  · unfold svgContent
    exact containsSub_append_left _ _ _ (containsSub_append_left _ _ _
      (containsSub_append_left _ _ _ (containsSub_append_self _ _)))
  · unfold svgContent
    exact containsSub_append_left _ _ _ (containsSub_append_self _ _)

/-- C6 counterexample: for the slide block `&`, the label is `&` and the
generated SVG is not well-formed XML (the `&` is emitted unescaped into
character data, where it does not begin a valid entity reference). -/
theorem C6_counterexample :
    firstTextLine (lit "&") = lit "&" ∧
    xmlWf (svgContent (firstTextLine (lit "&")) 0) = false := by
  decide

/-- C6 witness: the amended statement at a concrete slide block. -/
theorem C6_witness :
    xmlWf (svgContent (firstTextLine (lit "## はじまり")) 7) = true ∧
    (firstTextLine (lit "## はじまり")).length ≤ 40 ∧
    containsSub (lit "width=\"1280\" height=\"720\"")
      (svgContent (firstTextLine (lit "## はじまり")) 7) = true ∧
    containsSub (svgPalette.getD (7 % svgPalette.length) [])
      (svgContent (firstTextLine (lit "## はじまり")) 7) = true ∧
    containsSub (firstTextLine (lit "## はじまり"))
      (svgContent (firstTextLine (lit "## はじまり")) 7) = true :=
  C6_amended (lit "## はじまり") 7 (by decide) (by decide)

end Ehon

